import Mathlib

/-!  Verification development for the dependency-tracking engine of a static-site
build tool (`src/src/GlobalDependencyMap.js`).

The JavaScript class `GlobalDependencyMap` wraps a directed graph store (the
`dependency-graph` npm package, configured with `circular: true`) with domain
semantics: template/layout/collection nodes, consumption and publication edges
for collections, layout lifecycle management, incremental queries and a
persistence codec.

Shallow embedding conventions:
* JavaScript `Map` objects (insertion ordered, unique keys) are embedded as
  association lists `List (String × α)`; `set` on an existing key updates in
  place, on a fresh key appends at the end, exactly like `Map.set`.
* The graph store itself is not part of the repository (only its caller is);
  it is modelled from the spec (§4.1 "Directed Graph Store") together with the
  documented contract of its operations: three insertion-ordered maps `nodes`,
  `outgoingEdges`, `incomingEdges` kept in sync, edge `from → to` pushing `to`
  at the end of `outgoingEdges[from]` and `from` at the end of
  `incomingEdges[to]` (no duplicates), queries that never mutate, and a
  deterministic cycle-tolerant depth-first post-order for `dependenciesOf`,
  `dependantsOf` and `overallOrder` (first-seen tie rule, §9).  The recursion
  is driven by explicit fuel large enough for every traversal.
* Graph-store operations that throw on unknown nodes ("node not found", §4.1)
  are totalized to no-ops / empty results; every caller in
  `GlobalDependencyMap.js` guards them with `hasNode` first (§7).
* Node metadata is the small mapping of §3: an optional `type` tag and an
  optional `consumes` marker.  A node added without data carries `none`.
-/

namespace ElevenDeps

/-! ### String helpers (JavaScript string primitives on `String.data`) -/

/-- JavaScript `String.prototype.startsWith`, via the character list. -/
def strStartsWith (s p : String) : Bool :=
  p.data.isPrefixOf s.data

/-- JavaScript `String.prototype.slice(n)` (drop the first `n` characters). -/
def strDropChars (s : String) (n : Nat) : String :=
  ⟨s.data.drop n⟩

/-- True when the string does not contain a comma (used for the
`getTemplateOrder` trailing-pattern analysis, which compares a comma-joined
rendering of the last three order entries). -/
def noComma (s : String) : Bool :=
  ¬ (',' ∈ s.data)

/-- JavaScript `Array.prototype.join(",")`. -/
def joinComma : List String → String
  | [] => ""
  | [s] => s
  | s :: rest => s ++ "," ++ joinComma rest

/-! ### Association lists standing in for JavaScript `Map` objects -/

/-- First entry with the given key, like `Map.get`. -/
def alGet {α : Type} : List (String × α) → String → Option α
  | [], _ => none
  | (k, v) :: rest, key => if key = k then some v else alGet rest key

/-- `Map.get` with a default value. -/
def alGetD {α : Type} (l : List (String × α)) (key : String) (d : α) : α :=
  (alGet l key).getD d

/-- `Map.has`. -/
def alHas {α : Type} (l : List (String × α)) (key : String) : Bool :=
  (alGet l key).isSome

/-- Insertion-ordered key list (`Map.keys`). -/
def alKeys {α : Type} (l : List (String × α)) : List String :=
  l.map (fun p => p.1)

/-- `Map.set`: update in place when the key is present, append otherwise. -/
def alSet {α : Type} (l : List (String × α)) (key : String) (v : α) :
    List (String × α) :=
  if alHas l key then l.map (fun p => if p.1 = key then (p.1, v) else p)
  else l ++ [(key, v)]

/-- Update the value stored at an existing key (no-op on a missing key). -/
def alUpdate {α : Type} (l : List (String × α)) (key : String) (f : α → α) :
    List (String × α) :=
  l.map (fun p => if p.1 = key then (p.1, f p.2) else p)

/-- `Map.delete`. -/
def alDelete {α : Type} (l : List (String × α)) (key : String) :
    List (String × α) :=
  l.filter (fun p => ¬ p.1 = key)

/-! ### Node metadata (§3) -/

/-- Node metadata: the `type` tag (set to `"layout"` for layout nodes) and the
`consumes` marker (set to `"[configapi]"` for configuration-API consumers). -/
structure NodeData where
  type : Option String
  consumes : Option String
deriving DecidableEq, Repr

/-- `Object.assign(old, new)` restricted to the two metadata fields: a field
present in the new data overwrites, an absent one keeps the old value.  A node
whose stored data is the graph store's no-data placeholder (`none`) exposes no
fields, so merging into it yields exactly the new data. -/
def mergeData : Option NodeData → NodeData → NodeData
  | none, d => d
  | some o, d =>
    ⟨(if d.type.isSome then d.type else o.type),
     (if d.consumes.isSome then d.consumes else o.consumes)⟩

/-! ### The directed graph store.

Modelled from the spec: the `dependency-graph` package (the Directed Graph
Store of §4.1) is an external collaborator whose source is not in the
repository; the definitions below follow the contract stated there and in §9
(cycle tolerance with a deterministic first-seen tie rule). -/

/-- State of the graph store: three insertion-ordered maps.  The `circular`
flag of the JavaScript object is always `true` here and is omitted. -/
structure DepGraph where
  nodes : List (String × Option NodeData)
  outgoingEdges : List (String × List String)
  incomingEdges : List (String × List String)
deriving DecidableEq, Repr

/-- The empty graph (`new DepGraph({ circular: true })`). -/
def DepGraph.empty : DepGraph := ⟨[], [], []⟩

def DepGraph.hasNode (g : DepGraph) (node : String) : Bool :=
  alHas g.nodes node

/-- `getNodeData`, flattened over existence: a missing node and the no-data
placeholder both expose no metadata fields. -/
def DepGraph.getNodeData (g : DepGraph) (node : String) : Option NodeData :=
  (alGet g.nodes node).getD none

/-- The `type` metadata field of a node (`getNodeData(node)?.type`). -/
def DepGraph.nodeType (g : DepGraph) (node : String) : Option String :=
  (g.getNodeData node).bind (fun d => d.type)

def DepGraph.setNodeData (g : DepGraph) (node : String) (d : Option NodeData) :
    DepGraph :=
  { g with nodes := alSet g.nodes node d }

/-- `addNode(name, data?)`: create the node and its two empty edge lists; a
no-op when the node already exists. -/
def DepGraph.addNode (g : DepGraph) (node : String) (d : Option NodeData) :
    DepGraph :=
  if g.hasNode node then g
  else
    { nodes := g.nodes ++ [(node, d)]
      outgoingEdges := g.outgoingEdges ++ [(node, [])]
      incomingEdges := g.incomingEdges ++ [(node, [])] }

/-- `addDependency(from, to)` of the graph store: push `to` at the end of
`outgoingEdges[from]` and `from` at the end of `incomingEdges[to]`, without
duplicating an existing entry.  (The store throws when an endpoint is missing;
the Dependency Map always creates both endpoints first, so the missing-key
case is totalized to a no-op.) -/
def DepGraph.addEdge (g : DepGraph) (f t : String) : DepGraph :=
  { g with
    outgoingEdges :=
      alUpdate g.outgoingEdges f (fun l => if t ∈ l then l else l ++ [t])
    incomingEdges :=
      alUpdate g.incomingEdges t (fun l => if f ∈ l then l else l ++ [f]) }

/-- `removeDependency(from, to)`: erase the (unique) occurrences. -/
def DepGraph.removeDependency (g : DepGraph) (f t : String) : DepGraph :=
  { g with
    outgoingEdges := alUpdate g.outgoingEdges f (fun l => l.erase t)
    incomingEdges := alUpdate g.incomingEdges t (fun l => l.erase f) }

/-- `removeNode(node)`: drop the node from all three maps and erase it from
every remaining edge list. -/
def DepGraph.removeNode (g : DepGraph) (node : String) : DepGraph :=
  { nodes := alDelete g.nodes node
    outgoingEdges :=
      (alDelete g.outgoingEdges node).map (fun p => (p.1, p.2.erase node))
    incomingEdges :=
      (alDelete g.incomingEdges node).map (fun p => (p.1, p.2.erase node)) }

def DepGraph.directDependenciesOf (g : DepGraph) (node : String) : List String :=
  alGetD g.outgoingEdges node []

def DepGraph.directDependantsOf (g : DepGraph) (node : String) : List String :=
  alGetD g.incomingEdges node []

/-- Cycle-tolerant depth-first post-order over an edge map: skip nodes already
in the result (visited) or on the current path (cycle), otherwise traverse the
node's edge list left to right and append the node afterwards.  `fuel` bounds
the recursion depth; callers pass `dfsFuel`, which exceeds the longest
possible duplicate-free path. -/
def dfsGo (edges : List (String × List String)) (fuel : Nat)
    (res path : List String) (node : String) : List String :=
  match fuel with
  | 0 => res
  | f + 1 =>
    if node ∈ res ∨ node ∈ path then res
    else
      (alGetD edges node []).foldl
        (fun r t => dfsGo edges f r (node :: path) t) res ++ [node]

/-- Fuel that strictly exceeds the length of any duplicate-free traversal
path: every path element beyond the start comes from some edge list. -/
def dfsFuel (edges : List (String × List String)) : Nat :=
  (edges.map (fun p => p.2.length)).sum + edges.length + 2

/-- `dependenciesOf(node)`: transitive closure over outgoing edges, the start
node itself removed from the post-order result. -/
def DepGraph.dependenciesOf (g : DepGraph) (node : String) : List String :=
  (dfsGo g.outgoingEdges (dfsFuel g.outgoingEdges) [] [] node).erase node

/-- `dependantsOf(node)`: transitive closure over incoming edges. -/
def DepGraph.dependantsOf (g : DepGraph) (node : String) : List String :=
  (dfsGo g.incomingEdges (dfsFuel g.incomingEdges) [] [] node).erase node

/-- `overallOrder()`: run the shared-visited depth-first post-order from every
node without dependants, then (cycle tolerance) from every node not yet
visited, in insertion order. -/
def DepGraph.overallOrder (g : DepGraph) : List String :=
  let keys := alKeys g.nodes
  if keys.isEmpty then []
  else
    let fuel := dfsFuel g.outgoingEdges
    let roots := keys.filter (fun n => alGetD g.incomingEdges n [] = [])
    let res1 := roots.foldl (fun r n => dfsGo g.outgoingEdges fuel r [] n) []
    let rest := keys.filter (fun n => ¬ n ∈ res1)
    rest.foldl (fun r n => dfsGo g.outgoingEdges fuel r [] n) res1

/-! ### `GlobalDependencyMap` constants and helpers
(from `src/src/GlobalDependencyMap.js`) -/

def LAYOUT_KEY : String := "layout"
def COLLECTION_PREFIX : String := "__collection:"
def CONFIGAPI_DATA_KEY : String := "[configapi]"
def SPECIAL_ALL_COLLECTION_NAME : String := "all"
def SPECIAL_KEYS_COLLECTION_NAME : String := "[keys]"

/-- `GlobalDependencyMap.getCollectionKeyForEntry`. -/
def getCollectionKeyForEntry (entry : String) : String :=
  COLLECTION_PREFIX ++ entry

/-- The node name of the "all" meta-collection, `__collection:all`. -/
def allCollectionKey : String :=
  getCollectionKeyForEntry SPECIAL_ALL_COLLECTION_NAME

/-- The node name of the "[keys]" meta-collection, `__collection:[keys]`. -/
def keysCollectionKey : String :=
  getCollectionKeyForEntry SPECIAL_KEYS_COLLECTION_NAME

/-- `GlobalDependencyMap.isTag`. -/
def isTag (entry : String) : Bool :=
  strStartsWith entry COLLECTION_PREFIX

/-- `GlobalDependencyMap.getTagName`: the collection name of a collection-node
name (`undefined`, i.e. `none`, for any other node name). -/
def getTagName (entry : String) : Option String :=
  if isTag entry then some (strDropChars entry COLLECTION_PREFIX.data.length)
  else none

/-- Modelled from the spec: `PathNormalizer.fullNormalization` belongs to the
external Path Normalizer (§2, §6), whose source is not in the repository.  It
canonicalizes a path string into a single stable form; modelled as stripping
one leading `./` (the caller-visible canonicalization the Dependency Map
relies on: the src file itself strips leading dot-slashes with
`TemplatePath.stripLeadingDotSlash`, and the src comments note that layout
keys and paths agree on this form). -/
def fullNormalization (s : String) : String :=
  if strStartsWith s "./" then strDropChars s 2 else s

/-- `normalizeNode` specialized to a non-empty string argument (the only kind
the string-level public operations below are applied to; the full
falsy/object behavior of `normalizeNode` is embedded separately as
`normalizeNode` on `JSVal` for the error-handling analysis). -/
def normStr (s : String) : String :=
  fullNormalization s

/-! ### The `GlobalDependencyMap` state and operations -/

/-- The Dependency Map state: the wrapped graph plus the cached
configuration-API collection names (`#cachedUserConfigurationCollectionApiNames`,
set through `setCollectionApiNames`; the lazy read from the user configuration
is the external Configuration-collection-name source of §6). -/
structure GlobalDependencyMap where
  map : DepGraph
  collectionApiNames : List String
deriving DecidableEq, Repr

/-- A fresh map with the given configuration-API collection names. -/
def GlobalDependencyMap.mk0 (names : List String) : GlobalDependencyMap :=
  ⟨DepGraph.empty, names⟩

/-- `isUserConfigCollectionName(name)`. -/
def GlobalDependencyMap.isUserConfigCollectionName
    (m : GlobalDependencyMap) (name : String) : Bool :=
  name ∈ m.collectionApiNames

/-- `#addNode(name, type?)`: early return when the node exists, otherwise add
it, with `{ type }` data when a type is supplied. -/
def addNodePriv (g : DepGraph) (name : String) (type? : Option String) :
    DepGraph :=
  if g.hasNode name then g
  else g.addNode name (type?.map (fun t => ⟨some t, none⟩))

/-- `#addDependency(from, toArray)` (node arguments already normalized):
create `from`, then for each entry create it and add the edge unless the
entry equals `from`.  (The JavaScript throws when `toArray` is not an array;
the embedding's argument is an array by type.) -/
def addDependencyPriv (g : DepGraph) (f : String) (toArray : List String) :
    DepGraph :=
  toArray.foldl
    (fun g t =>
      if f ≠ t then (addNodePriv g t none).addEdge f t
      else addNodePriv g t none)
    (addNodePriv g f none)

/-- `#mergeNodeData(name, newData)`. -/
def mergeNodeDataPriv (g : DepGraph) (name : String) (newData : NodeData) :
    DepGraph :=
  if g.hasNode name then
    g.setNodeData name (some (mergeData (g.getNodeData name) newData))
  else g.setNodeData name (some newData)

/-- `addDependency(from, toArray)` (string-level: both sides normalized). -/
def GlobalDependencyMap.addDependency (m : GlobalDependencyMap)
    (f : String) (toArray : List String) : GlobalDependencyMap :=
  { m with map := addDependencyPriv m.map (normStr f) (toArray.map normStr) }

/-- `isConfigurationApiConsumer(nodeName)`. -/
def GlobalDependencyMap.isConfigurationApiConsumer
    (m : GlobalDependencyMap) (nodeName : String) : Bool :=
  if ¬ m.map.hasNode nodeName then false
  else (m.map.getNodeData nodeName).bind (fun d => d.consumes)
         = some CONFIGAPI_DATA_KEY

/-- `addDependencyConsumesCollection(from, collectionName)`. -/
def GlobalDependencyMap.addDependencyConsumesCollection
    (m : GlobalDependencyMap) (f collectionName : String) :
    GlobalDependencyMap :=
  let nodeName := normStr f
  let collectionKey := getCollectionKeyForEntry collectionName
  let m1 := { m with map := addDependencyPriv m.map nodeName [collectionKey] }
  let m2 :=
    if m.isUserConfigCollectionName collectionName then
      { m1 with
        map := mergeNodeDataPriv m1.map nodeName ⟨none, some CONFIGAPI_DATA_KEY⟩ }
    else m1
  if collectionName = SPECIAL_KEYS_COLLECTION_NAME then
    { m2 with map := addDependencyPriv m2.map collectionKey [allCollectionKey] }
  else if collectionName = SPECIAL_ALL_COLLECTION_NAME then
    { m2 with map := addDependencyPriv m2.map collectionKey [keysCollectionKey] }
  else if m.isUserConfigCollectionName collectionName then
    { m2 with map := addDependencyPriv m2.map collectionKey [allCollectionKey] }
  else m2

/-- `addDependencyPublishesToCollection(from, collectionName)`. -/
def GlobalDependencyMap.addDependencyPublishesToCollection
    (m : GlobalDependencyMap) (f collectionName : String) :
    GlobalDependencyMap :=
  let normalizedFrom := normStr f
  let key := getCollectionKeyForEntry collectionName
  let m1 :=
    if collectionName = SPECIAL_ALL_COLLECTION_NAME ∧
        m.isConfigurationApiConsumer normalizedFrom then
      m
    else { m with map := addDependencyPriv m.map key [normalizedFrom] }
  if ¬ m.isUserConfigCollectionName collectionName then
    { m1 with map := addDependencyPriv m1.map keysCollectionKey [key] }
  else m1

/-- `hasNode(node)` of the Dependency Map (normalizes first). -/
def GlobalDependencyMap.hasNode (m : GlobalDependencyMap) (node : String) :
    Bool :=
  m.map.hasNode (normStr node)

/-- `getDependantsFor(node)`: empty for a falsy or unknown node, otherwise the
direct dependants. -/
def GlobalDependencyMap.getDependantsFor (m : GlobalDependencyMap)
    (node : String) : List String :=
  if node = "" then []
  else
    let n := normStr node
    if ¬ m.map.hasNode n then [] else m.map.directDependantsOf n

/-- First-occurrence deduplication (`new Set(list)` iteration order). -/
def dedupFirst (seen : List String) : List String → List String
  | [] => []
  | x :: xs =>
    if x ∈ seen then dedupFirst seen xs else x :: dedupFirst (x :: seen) xs

/-- The `prevDeps` computation of `findCollectionsRemovedFrom`: the truthy
tag names of the node's direct dependants
(`getDependantsFor(node).map(getTagName).filter(Boolean)`). -/
def prevConsumedNames (m : GlobalDependencyMap) (node : String) :
    List String :=
  (m.getDependantsFor node).filterMap
    (fun entry => (getTagName entry).bind
      (fun t => if t = "" then none else some t))

/-- `findCollectionsRemovedFrom(node, collectionNames)`: the collection names
derived from the node's direct dependants (truthy tag names only) that are
absent from the supplied set. -/
def GlobalDependencyMap.findCollectionsRemovedFrom (m : GlobalDependencyMap)
    (node : String) (collectionNames : List String) : List String :=
  if ¬ m.hasNode node then []
  else
    (dedupFirst [] (prevConsumedNames m node)).filter
      (fun dep => ¬ dep ∈ collectionNames)

/-- `resetNode(node)`: remove every outgoing edge of the node, leaving
incoming edges untouched. -/
def GlobalDependencyMap.resetNode (m : GlobalDependencyMap) (node : String) :
    GlobalDependencyMap :=
  let n := normStr node
  if ¬ m.map.hasNode n then m
  else
    { m with
      map := (m.map.directDependenciesOf n).foldl
        (fun g dep => g.removeDependency n dep) m.map }

/-- Static `GlobalDependencyMap.removeLayoutNodes(graph, nodeList)`: filter
out layout-typed nodes. -/
def removeLayoutNodesStatic (g : DepGraph) (nodeList : List String) :
    List String :=
  nodeList.filter (fun node => ¬ g.nodeType node = some LAYOUT_KEY)

/-- `getDependencies(node, includeLayouts)`: `none` (the `false` sentinel) for
an unknown node; otherwise the transitive dependency list, layout nodes
filtered out when requested (`filter(Boolean)` drops empty-string entries). -/
def GlobalDependencyMap.getDependencies (m : GlobalDependencyMap)
    (node : String) (includeLayouts : Bool) : Option (List String) :=
  let n := normStr node
  if ¬ m.map.hasNode n then none
  else if includeLayouts then
    some ((m.map.dependenciesOf n).filter (fun s => ¬ s = ""))
  else some (removeLayoutNodesStatic m.map (m.map.dependenciesOf n))

/-- `getTemplatesThatConsumeCollections(collectionNames)`: every transitive
dependant of each named collection node that is neither a collection node nor
a layout (returned in `Set` insertion order). -/
def GlobalDependencyMap.getTemplatesThatConsumeCollections
    (m : GlobalDependencyMap) (collectionNames : List String) : List String :=
  collectionNames.foldl
    (fun templates name =>
      let collectionKey := getCollectionKeyForEntry name
      if ¬ m.map.hasNode collectionKey then templates
      else
        (m.map.dependantsOf collectionKey).foldl
          (fun templates node =>
            if ¬ strStartsWith node COLLECTION_PREFIX ∧
                ¬ m.map.nodeType node = some LAYOUT_KEY then
              if node ∈ templates then templates else templates ++ [node]
            else templates)
          templates)
    []

/-- `getLayoutsUsedBy(node)`: the node itself when it is a layout, plus every
layout-typed entry of `dependantsOf(node)`. -/
def GlobalDependencyMap.getLayoutsUsedBy (m : GlobalDependencyMap)
    (node : String) : List String :=
  let n := normStr node
  if ¬ m.map.hasNode n then []
  else
    (if m.map.nodeType n = some LAYOUT_KEY then [n] else []) ++
      (m.map.dependantsOf n).filter
        (fun x => m.map.nodeType x = some LAYOUT_KEY)

/-- `normalizeLayoutsObject(layouts)`: normalize keys and values, rebuilding
the object in insertion order. -/
def normalizeLayoutsObject (layouts : List (String × List String)) :
    List (String × List String) :=
  layouts.foldl (fun o p => alSet o (normStr p.1) (p.2.map normStr)) []

/-- `removeLayoutNodes(normalizedLayouts)`: walk the current topological
order and remove every layout-typed node absent from the new mapping. -/
def GlobalDependencyMap.removeLayoutNodes (m : GlobalDependencyMap)
    (normalizedLayouts : List (String × List String)) : GlobalDependencyMap :=
  { m with
    map := m.map.overallOrder.foldl
      (fun g node =>
        if g.nodeType node = some LAYOUT_KEY ∧
            alGet normalizedLayouts node = none then
          g.removeNode node
        else g)
      m.map }

/-- `addLayoutsToMap(layouts)`: normalize the mapping, clear stale layout
nodes, tag every layout node with `type = layout` (adding or overwriting the
node data), and record `template → layout` for each using template.  The
JavaScript-import spidering branch belongs to the external import-dependency
discovery collaborator (§6) and is disabled here
(`shouldSpiderJavaScriptDependencies()` false, as in the scenarios). -/
def GlobalDependencyMap.addLayoutsToMap (m : GlobalDependencyMap)
    (layouts : List (String × List String)) : GlobalDependencyMap :=
  let normalizedLayouts := normalizeLayoutsObject layouts
  let m1 := m.removeLayoutNodes normalizedLayouts
  normalizedLayouts.foldl
    (fun m p =>
      let m :=
        { m with
          map :=
            if ¬ m.map.hasNode p.1 then
              m.map.addNode p.1 (some ⟨some LAYOUT_KEY, none⟩)
            else m.map.setNodeData p.1 (some ⟨some LAYOUT_KEY, none⟩) }
      p.2.foldl (fun m pageTemplate => m.addDependency pageTemplate [p.1]) m)
    m1

/-- The comma-joined trailing pattern tested by `getTemplateOrder`. -/
def templateOrderPattern : String :=
  "__collection:all,__collection:[keys],__collection:all"

/-- First statement of `getTemplateOrder`: `order.push(allKey)` when the last
entry is not already the all-collection key (`order[order.length - 1] !==
allKey`; on an empty order the indexing yields `undefined`, so the key is
pushed). -/
def appendAllStep (order : List String) : List String :=
  if ¬ order.getLast? = some allCollectionKey then order ++ [allCollectionKey]
  else order

/-- Second statement of `getTemplateOrder`: when
`order.slice(-3).join(",")` renders the `all,[keys],all` pattern, keep
everything but the last two entries (`order.slice(0, -2)`). -/
def collapseStep (order : List String) : List String :=
  if joinComma (order.drop (order.length - 3)) = templateOrderPattern then
    order.take (order.length - 2)
  else order

/-- `getTemplateOrder()`: the overall order, with the all-collection key
appended when not already last, and a trailing
`all, [keys], all` rendering collapsed down to a single trailing `all`. -/
def GlobalDependencyMap.getTemplateOrder (m : GlobalDependencyMap) :
    List String :=
  collapseStep (appendAllStep m.map.overallOrder)

/-! ### Persistence codec (`stringify` / `restore`)

`stringify` serializes the wrapped graph with `JSON.stringify`, flattening the
three internal `Map` objects to plain key/value objects; `restore` parses and
replays every flattened entry into the fresh graph's maps with `Map.set`.  The
JSON text layer itself (escaping of string keys and values) is the external,
implementation-defined serialized text format of §6 and is embedded as the
flattened structure it denotes. -/

/-- The flattened serialized form: the three maps as plain key/value lists
(the constant `circular: true` field is omitted; `restore`'s replay loop
ignores it). -/
structure SerializedGraph where
  nodes : List (String × Option NodeData)
  outgoingEdges : List (String × List String)
  incomingEdges : List (String × List String)
deriving DecidableEq, Repr

/-- `stringify()`: flatten each internal `Map` in iteration order. -/
def GlobalDependencyMap.stringify (m : GlobalDependencyMap) : SerializedGraph :=
  ⟨m.map.nodes, m.map.outgoingEdges, m.map.incomingEdges⟩

/-- Replay flattened entries into a fresh map with `Map.set`. -/
def replayEntries {α : Type} (entries : List (String × α)) :
    List (String × α) :=
  entries.foldl (fun acc p => alSet acc p.1 p.2) []

/-- `restore(persisted)`: build a fresh circular graph and set every
serialized entry into the corresponding internal map. -/
def GlobalDependencyMap.restore (m : GlobalDependencyMap)
    (persisted : SerializedGraph) : GlobalDependencyMap :=
  { m with
    map :=
      ⟨replayEntries persisted.nodes, replayEntries persisted.outgoingEdges,
       replayEntries persisted.incomingEdges⟩ }

/-! ### `normalizeNode` over JavaScript values (error handling, §7) -/

/-- The JavaScript values relevant to `normalizeNode`'s control flow: `null`,
`undefined`, booleans, numbers (tracking only falsiness, i.e. `0`/`NaN`),
strings, objects whose `toString()` yields a string (e.g. `URL` objects),
objects whose `toString()` yields a non-string, and objects with no
`toString` in their prototype chain (e.g. `Object.create(null)`). -/
inductive JSVal where
  | jsNull
  | jsUndefined
  | jsBool (b : Bool)
  | jsNum (falsy : Bool)
  | jsStr (s : String)
  | jsObjToStr (s : String)
  | jsObjToStrNonString
  | jsObjNoToString
deriving DecidableEq, Repr

/-- JavaScript truthiness of a `JSVal`. -/
def JSVal.isTruthy : JSVal → Bool
  | .jsNull => false
  | .jsUndefined => false
  | .jsBool b => b
  | .jsNum falsy => ¬ falsy
  | .jsStr s => ¬ s = ""
  | .jsObjToStr _ => true
  | .jsObjToStrNonString => true
  | .jsObjNoToString => true

/-- A value is string-convertible when it is a string already or an object
whose `toString()` yields a string. -/
def JSVal.isStringConvertible : JSVal → Bool
  | .jsStr _ => true
  | .jsObjToStr _ => true
  | _ => false

/-- The descriptive error thrown by `normalizeNode`. -/
def normalizeErrorMessage : String :=
  "`addDependencies` files must be strings."

/-- The `TypeError` raised by evaluating `\"toString\" in node` on a truthy
non-object primitive. -/
def inOperatorTypeError : String :=
  "TypeError: cannot use the in operator on a non-object."

/-- `normalizeNode(node)` over JavaScript values: falsy input returns
`undefined` (`.ok none`); a truthy non-string primitive makes the
`\"toString\" in node` test itself throw a `TypeError`; an object is
converted with `toString()` when available; whatever is not a string at that
point raises the descriptive error; a string is normalized. -/
def normalizeNode : JSVal → Except String (Option String)
  | .jsNull => .ok none
  | .jsUndefined => .ok none
  | .jsBool false => .ok none
  | .jsBool true => .error inOperatorTypeError
  | .jsNum true => .ok none
  | .jsNum false => .error inOperatorTypeError
  | .jsStr s => if s = "" then .ok none else .ok (some (fullNormalization s))
  | .jsObjToStr s => .ok (some (fullNormalization s))
  | .jsObjToStrNonString => .error normalizeErrorMessage
  | .jsObjNoToString => .error normalizeErrorMessage

/-! ### Analysis definitions -/

/-- The graph store's internal invariant: the three maps always carry the same
keys in the same insertion order, without duplicates (every mutation of the
store creates or deletes entries in all three maps together). -/
def wfGraph (g : DepGraph) : Prop :=
  alKeys g.outgoingEdges = alKeys g.nodes ∧
    alKeys g.incomingEdges = alKeys g.nodes ∧ (alKeys g.nodes).Nodup

instance (g : DepGraph) : Decidable (wfGraph g) := by
  unfold wfGraph; infer_instance

/-- The edge `f → t` is recorded (i.e. `t` is a direct dependency of `f`). -/
def DepGraph.hasEdge (g : DepGraph) (f t : String) : Prop :=
  t ∈ g.directDependenciesOf f

instance (g : DepGraph) (f t : String) : Decidable (g.hasEdge f t) := by
  unfold DepGraph.hasEdge; infer_instance

/-! ### Concrete scenario states used by the claim analyses -/

/-- The publish/consume scenario: `post1.md` and `post2.md` publish to
`blog`, `index.md` consumes `blog` (no configuration-API collections). -/
def consumerScenario : GlobalDependencyMap :=
  (((GlobalDependencyMap.mk0 []).addDependencyPublishesToCollection
        "post1.md" "blog").addDependencyPublishesToCollection
      "post2.md" "blog").addDependencyConsumesCollection "index.md" "blog"

/-- The layout lifecycle scenario after
`addLayoutsToMap({"base.html": ["post1.md","post2.md"]})`. -/
def layoutScenario1 : GlobalDependencyMap :=
  (GlobalDependencyMap.mk0 []).addLayoutsToMap
    [("base.html", ["post1.md", "post2.md"])]

/-- The layout lifecycle scenario after the subsequent
`addLayoutsToMap({"other.html": ["post1.md"]})`. -/
def layoutScenario2 : GlobalDependencyMap :=
  layoutScenario1.addLayoutsToMap [("other.html", ["post1.md"])]

/-- A reachable graph whose only node is named
`__collection:all,__collection:[keys]`: the comma-joined trailing-pattern
check of `getTemplateOrder` is spoofed by the commas in the node name. -/
def commaSpoofScenario : GlobalDependencyMap :=
  (GlobalDependencyMap.mk0 []).addDependency
    "__collection:all,__collection:[keys]" []

/-- A graph holding one node `n.html` tagged `type = layout`, with `blog`
registered as a configuration-API collection name. -/
def layoutTaggedScenario : GlobalDependencyMap :=
  (GlobalDependencyMap.mk0 ["blog"]).addLayoutsToMap [("n.html", [])]

/-- The layout node of `layoutTaggedScenario` then consumes the
configuration-API collection `blog`: the consume call merges the `consumes`
marker into the node's metadata. -/
def layoutConsumerScenario : GlobalDependencyMap :=
  layoutTaggedScenario.addDependencyConsumesCollection "n.html" "blog"

/-- Publishing to the reserved `[keys]` collection: the implied
`collection([keys]) → collection([keys])` edge is a self-edge and is
skipped. -/
def publishKeysScenario : GlobalDependencyMap :=
  (GlobalDependencyMap.mk0 []).addDependencyPublishesToCollection
    "a.md" "[keys]"

/-- Publishing a node whose own name equals the collection-node name
`__collection:blog`: the `collection(blog) → from` edge is a self-edge and
is skipped. -/
def publishSelfScenario : GlobalDependencyMap :=
  (GlobalDependencyMap.mk0 []).addDependencyPublishesToCollection
    "__collection:blog" "blog"

/-! ## Lemma kit: association lists -/

theorem alGet_cons {α : Type} (k : String) (v : α) (rest : List (String × α))
    (key : String) :
    alGet ((k, v) :: rest) key = if key = k then some v else alGet rest key :=
  rfl

theorem alHas_iff_mem {α : Type} (l : List (String × α)) (key : String) :
    alHas l key = true ↔ key ∈ alKeys l := by
  induction l with
  | nil => simp [alHas, alGet, alKeys]
  | cons p rest ih =>
    obtain ⟨k, v⟩ := p
    by_cases h : key = k
    · subst h; simp [alHas, alGet_cons, alKeys]
    · simp only [alHas, alGet_cons, if_neg h, alKeys, List.map_cons,
        List.mem_cons] at ih ⊢
      simp [ih, h]

theorem alGet_eq_none_iff {α : Type} (l : List (String × α)) (key : String) :
    alGet l key = none ↔ ¬ key ∈ alKeys l := by
  rw [← alHas_iff_mem]
  simp [alHas, Option.isSome_iff_ne_none]

theorem alGet_append_left {α : Type} {l : List (String × α)} {key : String}
    (l' : List (String × α)) (h : key ∈ alKeys l) :
    alGet (l ++ l') key = alGet l key := by
  induction l with
  | nil => simp [alKeys] at h
  | cons p rest ih =>
    obtain ⟨k, v⟩ := p
    by_cases hk : key = k
    · simp [alGet_cons, hk]
    · simp only [alKeys, List.map_cons, List.mem_cons] at h
      rcases h with h | h

      · exact absurd h hk
      · simp only [List.cons_append, alGet_cons, if_neg hk]
        exact ih h

theorem alGet_append_right {α : Type} {l : List (String × α)} {key : String}
    (l' : List (String × α)) (h : ¬ key ∈ alKeys l) :
    alGet (l ++ l') key = alGet l' key := by
  induction l with
  | nil => simp
  | cons p rest ih =>
    obtain ⟨k, v⟩ := p
    simp only [alKeys, List.map_cons, List.mem_cons, not_or] at h
    simp only [List.cons_append, alGet_cons, if_neg h.1]
    exact ih h.2

theorem alGet_alUpdate {α : Type} (l : List (String × α)) (k : String)
    (f : α → α) (key : String) :
    alGet (alUpdate l k f) key =
      if key = k then (alGet l key).map f else alGet l key := by
  induction l with
  | nil => by_cases h : key = k <;> simp [alUpdate, alGet, h]
  | cons p rest ih =>
    obtain ⟨k', v⟩ := p
    by_cases hk : k' = k
    · subst hk
      by_cases hkey : key = k'
      · subst hkey; simp [alUpdate, alGet_cons]
      · simp only [alUpdate, List.map_cons, if_pos rfl]
        rw [alGet_cons, if_neg hkey]
        simpa [alUpdate, hkey, alGet_cons] using ih
    · by_cases hkey : key = k'
      · subst hkey
        simp [alUpdate, alGet_cons, hk]
      · simp only [alUpdate, List.map_cons, if_neg hk, alGet_cons,
          if_neg hkey]
        simpa [alUpdate] using ih

theorem alKeys_alUpdate {α : Type} (l : List (String × α)) (k : String)
    (f : α → α) : alKeys (alUpdate l k f) = alKeys l := by
  simp only [alKeys, alUpdate, List.map_map]
  congr 1
  funext p
  by_cases h : p.1 = k <;> simp [h]

theorem alKeys_append {α : Type} (l l' : List (String × α)) :
    alKeys (l ++ l') = alKeys l ++ alKeys l' := by
  simp [alKeys]

theorem alSet_eq_alUpdate_of_has {α : Type} (l : List (String × α))
    (k : String) (v : α) (h : alHas l k = true) :
    alSet l k v = alUpdate l k (fun _ => v) := by
  rw [alSet, if_pos h]; rfl

theorem alGet_alSet_self {α : Type} (l : List (String × α)) (k : String)
    (v : α) : alGet (alSet l k v) k = some v := by
  by_cases h : alHas l k = true
  · rw [alSet_eq_alUpdate_of_has l k v h, alGet_alUpdate, if_pos rfl]
    rw [alHas] at h
    obtain ⟨w, hw⟩ := Option.isSome_iff_exists.mp h
    rw [hw]; rfl
  · rw [alSet, if_neg h]
    have h' : ¬ k ∈ alKeys l := fun hm => h ((alHas_iff_mem l k).mpr hm)
    rw [alGet_append_right _ h', alGet_cons, if_pos rfl]

theorem alGet_alSet_ne {α : Type} (l : List (String × α)) (k : String)
    (v : α) (key : String) (h : ¬ key = k) :
    alGet (alSet l k v) key = alGet l key := by
  by_cases hh : alHas l k = true
  · rw [alSet_eq_alUpdate_of_has l k v hh, alGet_alUpdate, if_neg h]
  · rw [alSet, if_neg hh]
    by_cases hm : key ∈ alKeys l
    · exact alGet_append_left _ hm
    · rw [alGet_append_right _ hm, alGet_cons, if_neg h,
        (alGet_eq_none_iff l key).mpr hm]
      rfl

theorem alKeys_alSet_of_has {α : Type} (l : List (String × α)) (k : String)
    (v : α) (h : alHas l k = true) : alKeys (alSet l k v) = alKeys l := by
  rw [alSet_eq_alUpdate_of_has l k v h, alKeys_alUpdate]

theorem alGetD_append_nil (l : List (String × List String)) (k x : String) :
    alGetD (l ++ [(k, [])]) x [] = alGetD l x [] := by
  by_cases h : x ∈ alKeys l
  · rw [alGetD, alGetD, alGet_append_left _ h]
  · rw [alGetD, alGetD, alGet_append_right _ h,
      (alGet_eq_none_iff l x).mpr h, alGet_cons]
    by_cases hx : x = k <;> simp [hx, alGet]

/-! ## Lemma kit: the graph store -/

theorem hasNode_iff_mem (g : DepGraph) (n : String) :
    g.hasNode n = true ↔ n ∈ alKeys g.nodes :=
  alHas_iff_mem g.nodes n

theorem wfGraph_addNode (g : DepGraph) (n : String) (d : Option NodeData)
    (h : wfGraph g) : wfGraph (g.addNode n d) := by
  rw [DepGraph.addNode]
  by_cases hn : g.hasNode n = true
  · simp [hn, h]
  · obtain ⟨h1, h2, h3⟩ := h
    have hm : ¬ n ∈ alKeys g.nodes := fun hmem =>
      hn ((hasNode_iff_mem g n).mpr hmem)
    simp only [hn, if_false, Bool.false_eq_true]
    refine ⟨?_, ?_, ?_⟩
    · rw [alKeys_append, alKeys_append, h1]
      simp [alKeys]
    · rw [alKeys_append, alKeys_append, h2]
      simp [alKeys]
    · rw [alKeys_append]
      rw [List.nodup_append]
      refine ⟨h3, by simp [alKeys], ?_⟩
      intro x hx hx'
      have : x = n := by simpa [alKeys] using hx'
      exact hm (this ▸ hx)

theorem nodes_addEdge (g : DepGraph) (a b : String) :
    (g.addEdge a b).nodes = g.nodes := rfl

theorem wfGraph_addEdge (g : DepGraph) (a b : String) (h : wfGraph g) :
    wfGraph (g.addEdge a b) := by
  obtain ⟨h1, h2, h3⟩ := h
  exact ⟨by simpa [DepGraph.addEdge, alKeys_alUpdate] using h1,
    by simpa [DepGraph.addEdge, alKeys_alUpdate] using h2, h3⟩

theorem wfGraph_addNodePriv (g : DepGraph) (n : String) (t : Option String)
    (h : wfGraph g) : wfGraph (addNodePriv g n t) := by
  rw [addNodePriv]
  by_cases hn : g.hasNode n = true
  · simpa [hn]
  · simpa [hn] using wfGraph_addNode g n _ h

theorem mem_nodes_addNodePriv_self (g : DepGraph) (n : String)
    (t : Option String) : n ∈ alKeys (addNodePriv g n t).nodes := by
  rw [addNodePriv]
  by_cases hn : g.hasNode n = true
  · simpa [hn] using (hasNode_iff_mem g n).mp hn
  · simp only [hn, if_false, Bool.false_eq_true, DepGraph.addNode, hn]
    simp [alKeys_append, alKeys]

theorem mem_nodes_addNodePriv_mono (g : DepGraph) (n x : String)
    (t : Option String) (h : x ∈ alKeys g.nodes) :
    x ∈ alKeys (addNodePriv g n t).nodes := by
  rw [addNodePriv]
  by_cases hn : g.hasNode n = true
  · simpa [hn]
  · simp only [hn, if_false, Bool.false_eq_true, DepGraph.addNode, hn]
    simp [alKeys_append, h]

theorem alGet_nodes_addNodePriv (g : DepGraph) (n x : String)
    (t : Option String) (h : x ∈ alKeys g.nodes) :
    alGet (addNodePriv g n t).nodes x = alGet g.nodes x := by
  rw [addNodePriv]
  by_cases hn : g.hasNode n = true
  · simp [hn]
  · simp only [hn, if_false, Bool.false_eq_true, DepGraph.addNode, hn]
    simpa using alGet_append_left _ h

theorem directDeps_addNodePriv (g : DepGraph) (n x : String)
    (t : Option String) :
    (addNodePriv g n t).directDependenciesOf x = g.directDependenciesOf x := by
  rw [addNodePriv]
  by_cases hn : g.hasNode n = true
  · simp [hn]
  · simp only [hn, if_false, Bool.false_eq_true, DepGraph.addNode, hn]
    simpa [DepGraph.directDependenciesOf] using
      alGetD_append_nil g.outgoingEdges n x

theorem hasEdge_addNodePriv (g : DepGraph) (n x y : String)
    (t : Option String) :
    (addNodePriv g n t).hasEdge x y ↔ g.hasEdge x y := by
  rw [DepGraph.hasEdge, DepGraph.hasEdge, directDeps_addNodePriv]

theorem hasEdge_addEdge_self (g : DepGraph) (a b : String)
    (h : a ∈ alKeys g.outgoingEdges) : (g.addEdge a b).hasEdge a b := by
  rw [DepGraph.hasEdge, DepGraph.directDependenciesOf, DepGraph.addEdge]
  have hs : (alGet g.outgoingEdges a).isSome :=
    (alHas_iff_mem g.outgoingEdges a).mpr h
  obtain ⟨l, hl⟩ := Option.isSome_iff_exists.mp hs
  simp only [alGetD, alGet_alUpdate, if_pos rfl, hl, Option.map_some,
    Option.getD_some]
  by_cases hb : b ∈ l <;> simp [hb]

theorem hasEdge_addEdge_mono (g : DepGraph) (a b x y : String)
    (h : g.hasEdge x y) : (g.addEdge a b).hasEdge x y := by
  rw [DepGraph.hasEdge, DepGraph.directDependenciesOf] at h
  rw [DepGraph.hasEdge, DepGraph.directDependenciesOf, DepGraph.addEdge]
  by_cases hx : x = a
  · subst hx
    rcases hl : alGet g.outgoingEdges x with _ | l
    · rw [alGetD, hl] at h; simp at h
    · rw [alGetD, hl] at h
      simp only [alGetD, alGet_alUpdate, if_pos rfl, hl, Option.map_some,
        Option.getD_some]
      by_cases hb : b ∈ l <;> simp_all
  · simpa [alGetD, alGet_alUpdate, hx] using h

theorem hasEdge_addEdge_ne (g : DepGraph) (a b x y : String) (hx : ¬ x = a) :
    (g.addEdge a b).hasEdge x y ↔ g.hasEdge x y := by
  simp [DepGraph.hasEdge, DepGraph.directDependenciesOf, DepGraph.addEdge,
    alGetD, alGet_alUpdate, hx]

/-! ## Lemma kit: `#addDependency` and `#mergeNodeData` -/

theorem addDependencyPriv_fold_inv (f : String) (ts : List String)
    (P : DepGraph → Prop)
    (hstep : ∀ g t, P g →
      P (if f ≠ t then (addNodePriv g t none).addEdge f t
         else addNodePriv g t none)) :
    ∀ g : DepGraph, P g →
      P (ts.foldl
        (fun g t =>
          if f ≠ t then (addNodePriv g t none).addEdge f t
          else addNodePriv g t none)
        g) := by
  induction ts with
  | nil => intro g h; exact h
  | cons t rest ih =>
    intro g h
    exact ih _ (hstep g t h)

theorem wfGraph_addDependencyPriv (g : DepGraph) (f : String)
    (ts : List String) (h : wfGraph g) : wfGraph (addDependencyPriv g f ts) := by
  rw [addDependencyPriv]
  apply addDependencyPriv_fold_inv f ts wfGraph
  · intro g' t h'
    by_cases hft : f ≠ t
    · simpa [hft] using wfGraph_addEdge _ f t (wfGraph_addNodePriv g' t none h')
    · simpa [hft] using wfGraph_addNodePriv g' t none h'
  · exact wfGraph_addNodePriv g f none h

theorem mem_nodes_addDependencyPriv_mono (g : DepGraph) (f x : String)
    (ts : List String) (h : x ∈ alKeys g.nodes) :
    x ∈ alKeys (addDependencyPriv g f ts).nodes := by
  rw [addDependencyPriv]
  apply addDependencyPriv_fold_inv f ts (fun g => x ∈ alKeys g.nodes)
  · intro g' t h'
    by_cases hft : f ≠ t
    · simpa [hft, nodes_addEdge] using mem_nodes_addNodePriv_mono g' t x none h'
    · simpa [hft] using mem_nodes_addNodePriv_mono g' t x none h'
  · exact mem_nodes_addNodePriv_mono g f x none h

theorem mem_nodes_addDependencyPriv_from (g : DepGraph) (f : String)
    (ts : List String) : f ∈ alKeys (addDependencyPriv g f ts).nodes := by
  rw [addDependencyPriv]
  apply addDependencyPriv_fold_inv f ts (fun g => f ∈ alKeys g.nodes)
  · intro g' t h'
    by_cases hft : f ≠ t
    · simpa [hft, nodes_addEdge] using mem_nodes_addNodePriv_mono g' t f none h'
    · simpa [hft] using mem_nodes_addNodePriv_mono g' t f none h'
  · exact mem_nodes_addNodePriv_self g f none

theorem hasEdge_addDependencyPriv_mono (g : DepGraph) (f x y : String)
    (ts : List String) (h : g.hasEdge x y) :
    (addDependencyPriv g f ts).hasEdge x y := by
  rw [addDependencyPriv]
  apply addDependencyPriv_fold_inv f ts (fun g => g.hasEdge x y)
  · intro g' t h'
    by_cases hft : f ≠ t
    · simpa [hft] using
        hasEdge_addEdge_mono _ f t x y ((hasEdge_addNodePriv g' t x y none).mpr h')
    · simpa [hft] using (hasEdge_addNodePriv g' t x y none).mpr h'
  · exact (hasEdge_addNodePriv g f x y none).mpr h

theorem hasEdge_addDependencyPriv_ne (g : DepGraph) (f x y : String)
    (ts : List String) (hx : ¬ x = f) :
    (addDependencyPriv g f ts).hasEdge x y ↔ g.hasEdge x y := by
  rw [addDependencyPriv]
  have base := hasEdge_addNodePriv g f x y none
  refine addDependencyPriv_fold_inv f ts
    (fun g' => (g'.hasEdge x y ↔ g.hasEdge x y)) ?_ _ base
  intro g' t h'
  by_cases hft : f ≠ t
  · simpa [hft] using
      ((hasEdge_addEdge_ne (addNodePriv g' t none) f t x y hx).trans
        ((hasEdge_addNodePriv g' t x y none).trans h'))
  · simpa [hft] using ((hasEdge_addNodePriv g' t x y none).trans h')

theorem alGet_nodes_addDependencyPriv (g : DepGraph) (f x : String)
    (ts : List String) (h : x ∈ alKeys g.nodes) :
    alGet (addDependencyPriv g f ts).nodes x = alGet g.nodes x := by
  rw [addDependencyPriv]
  have base : x ∈ alKeys (addNodePriv g f none).nodes ∧
      alGet (addNodePriv g f none).nodes x = alGet g.nodes x :=
    ⟨mem_nodes_addNodePriv_mono g f x none h, alGet_nodes_addNodePriv g f x none h⟩
  exact (addDependencyPriv_fold_inv f ts
    (fun g' => x ∈ alKeys g'.nodes ∧ alGet g'.nodes x = alGet g.nodes x)
    (by
      intro g' t h'
      by_cases hft : f ≠ t
      · simp only [if_pos hft, nodes_addEdge]
        exact ⟨mem_nodes_addNodePriv_mono g' t x none h'.1,
          (alGet_nodes_addNodePriv g' t x none h'.1).trans h'.2⟩
      · simp only [if_neg hft]
        exact ⟨mem_nodes_addNodePriv_mono g' t x none h'.1,
          (alGet_nodes_addNodePriv g' t x none h'.1).trans h'.2⟩)
    _ base).2

theorem hasEdge_addDependencyPriv_single (g : DepGraph) (f t : String)
    (hw : wfGraph g) (hft : f ≠ t) : (addDependencyPriv g f [t]).hasEdge f t := by
  rw [addDependencyPriv]
  simp only [List.foldl_cons, List.foldl_nil, if_pos hft]
  have hw2 : wfGraph (addNodePriv (addNodePriv g f none) t none) :=
    wfGraph_addNodePriv _ t none (wfGraph_addNodePriv g f none hw)
  have hf : f ∈ alKeys (addNodePriv (addNodePriv g f none) t none).nodes :=
    mem_nodes_addNodePriv_mono _ t f none (mem_nodes_addNodePriv_self g f none)
  apply hasEdge_addEdge_self
  rw [hw2.1]
  exact hf

theorem outgoingEdges_mergeNodeDataPriv (g : DepGraph) (n : String)
    (d : NodeData) :
    (mergeNodeDataPriv g n d).outgoingEdges = g.outgoingEdges := by
  rw [mergeNodeDataPriv]
  split <;> rfl

theorem hasEdge_mergeNodeDataPriv (g : DepGraph) (n x y : String)
    (d : NodeData) : (mergeNodeDataPriv g n d).hasEdge x y ↔ g.hasEdge x y := by
  rw [DepGraph.hasEdge, DepGraph.hasEdge, DepGraph.directDependenciesOf,
    DepGraph.directDependenciesOf, outgoingEdges_mergeNodeDataPriv]

theorem wfGraph_mergeNodeDataPriv (g : DepGraph) (n : String) (d : NodeData)
    (h : g.hasNode n = true) (hw : wfGraph g) :
    wfGraph (mergeNodeDataPriv g n d) := by
  rw [mergeNodeDataPriv, if_pos h, DepGraph.setNodeData]
  obtain ⟨h1, h2, h3⟩ := hw
  rw [DepGraph.hasNode] at h
  refine ⟨?_, ?_, ?_⟩ <;>
    simp [alKeys_alSet_of_has g.nodes n _ h, h1, h2, h3]

theorem mem_alKeys_alSet_mono {α : Type} (l : List (String × α))
    (k x : String) (v : α) (h : x ∈ alKeys l) : x ∈ alKeys (alSet l k v) := by
  by_cases hh : alHas l k = true
  · rwa [alKeys_alSet_of_has l k v hh]
  · rw [alSet, if_neg hh, alKeys_append]
    exact List.mem_append_left _ h

theorem alGet_nodes_mergeNodeDataPriv_ne (g : DepGraph) (n x : String)
    (d : NodeData) (hx : ¬ x = n) :
    alGet (mergeNodeDataPriv g n d).nodes x = alGet g.nodes x := by
  rw [mergeNodeDataPriv]
  split <;> exact alGet_alSet_ne g.nodes n _ x hx

theorem nodeType_mergeNodeDataPriv (g : DepGraph) (n x : String)
    (c : Option String) :
    (mergeNodeDataPriv g n ⟨none, c⟩).nodeType x = g.nodeType x := by
  by_cases hx : x = n
  · subst hx
    rw [mergeNodeDataPriv]
    by_cases h : g.hasNode x = true
    · rw [if_pos h, DepGraph.nodeType, DepGraph.nodeType, DepGraph.getNodeData,
        DepGraph.setNodeData, alGet_alSet_self]
      rw [DepGraph.hasNode, alHas] at h
      obtain ⟨w, hw⟩ := Option.isSome_iff_exists.mp h
      rw [DepGraph.getNodeData, hw]
      cases w with
      | none => simp [mergeData]
      | some o => simp [mergeData]
    · rw [if_neg h]
      have hnone : alGet g.nodes x = none :=
        (alGet_eq_none_iff g.nodes x).mpr
          (fun hm => h ((hasNode_iff_mem g x).mpr hm))
      rw [DepGraph.nodeType, DepGraph.nodeType, DepGraph.getNodeData,
        DepGraph.setNodeData, alGet_alSet_self, DepGraph.getNodeData, hnone]
      rfl
  · rw [DepGraph.nodeType, DepGraph.nodeType, DepGraph.getNodeData,
      DepGraph.getNodeData, alGet_nodes_mergeNodeDataPriv_ne g n x _ hx]

/-! ## Lemma kit: small traversal facts -/

theorem dfsFuel_pos (edges : List (String × List String)) : 0 < dfsFuel edges := by
  rw [dfsFuel]; omega

theorem dfsGo_start_no_edges (edges : List (String × List String))
    (fuel : Nat) (node : String) (h : alGetD edges node [] = [])
    (hf : 0 < fuel) : dfsGo edges fuel [] [] node = [node] := by
  cases fuel with
  | zero => omega
  | succ f =>
    rw [dfsGo]
    simp [h]

theorem mem_dedupFirst (l : List String) :
    ∀ (seen : List String) (a : String),
      a ∈ dedupFirst seen l ↔ a ∈ l ∧ ¬ a ∈ seen := by
  induction l with
  | nil => intro seen a; simp [dedupFirst]
  | cons x xs ih =>
    intro seen a
    rw [dedupFirst]
    by_cases hx : x ∈ seen
    · rw [if_pos hx, ih]
      constructor
      · rintro ⟨h1, h2⟩; exact ⟨List.mem_cons_of_mem x h1, h2⟩
      · rintro ⟨h1, h2⟩
        rcases List.mem_cons.mp h1 with h1 | h1
        · exact absurd (h1 ▸ hx) h2
        · exact ⟨h1, h2⟩
    · rw [if_neg hx]
      simp only [List.mem_cons, ih, not_or]
      constructor
      · rintro (h | ⟨h1, h2, h3⟩)
        · subst h; exact ⟨Or.inl rfl, hx⟩
        · exact ⟨Or.inr h1, h3⟩
      · rintro ⟨h1 | h1, h2⟩
        · subst h1; exact Or.inl rfl
        · by_cases ha : a = x
          · exact Or.inl ha
          · exact Or.inr ⟨h1, ha, h2⟩

/-! ## The claims -/

/-- C3: after `addDependencyPublishesToCollection("post1.md","blog")`,
`addDependencyPublishesToCollection("post2.md","blog")` and
`addDependencyConsumesCollection("index.md","blog")`, the query
`getTemplatesThatConsumeCollections({"blog"})` returns exactly the set
`{"index.md"}` — the publishers `post1.md` and `post2.md` are not
included. -/
theorem c3_consumer_query :
    consumerScenario.getTemplatesThatConsumeCollections ["blog"] =
      ["index.md"] ∧
    ¬ "post1.md" ∈
        consumerScenario.getTemplatesThatConsumeCollections ["blog"] ∧
    ¬ "post2.md" ∈
        consumerScenario.getTemplatesThatConsumeCollections ["blog"] := by
  decide

/-- C2 (code evaluation at the failing input): after
`addLayoutsToMap({"base.html": ["post1.md","post2.md"]})` the code returns
`[]` for `getLayoutsUsedBy("post1.md")` — not `["base.html"]` as the claim
and the spec scenario state — because `getLayoutsUsedBy` walks
`dependantsOf(post1.md)` (who depends on the template), while the
`template → layout` edge recorded by `addLayoutsToMap` makes the layout a
*dependency* of the template.  The second half of the scenario behaves the
same way: `base.html` is indeed removed from the graph, but
`getLayoutsUsedBy("post1.md")` is again `[]`, not `["other.html"]`.
(Consistently, the query answers in the dependant direction:
`getLayoutsUsedBy("base.html") = ["base.html"]`.) -/
theorem c2_layout_lifecycle_eval :
    layoutScenario1.getLayoutsUsedBy "post1.md" = [] ∧
    ¬ layoutScenario1.getLayoutsUsedBy "post1.md" = ["base.html"] ∧
    layoutScenario1.getLayoutsUsedBy "base.html" = ["base.html"] ∧
    layoutScenario2.hasNode "base.html" = false ∧
    layoutScenario2.getLayoutsUsedBy "post1.md" = [] ∧
    ¬ layoutScenario2.getLayoutsUsedBy "post1.md" = ["other.html"] := by
  decide

/-- C9 (counterexample): `normalizeNode` does *not* raise an error on the
non-string, non-stringifiable values `null` and `undefined`; their falsiness
makes the function silently return `undefined`, contradicting the claim that
such inputs fail fast with a descriptive error. -/
theorem c9_counterexample :
    normalizeNode JSVal.jsNull = Except.ok none ∧
    normalizeNode JSVal.jsUndefined = Except.ok none :=
  ⟨rfl, rfl⟩

/-- C9 (amended): every *falsy* input (`null`, `undefined`, `false`, `0`,
`NaN`, the empty string) is silently ignored — normalization returns
`undefined` without raising; every *truthy* value that is neither a string
nor an object whose `toString()` yields a string raises an error (the
descriptive `addDependencies` error for objects, a `TypeError` from the
`"toString" in node` test for truthy non-string primitives). -/
theorem c9_amended (v : JSVal) :
    (v.isTruthy = false → normalizeNode v = Except.ok none) ∧
    (v.isTruthy = true → v.isStringConvertible = false →
      ∃ msg, normalizeNode v = Except.error msg) := by
  cases v with
  | jsNull => exact ⟨fun _ => rfl, by simp [JSVal.isTruthy]⟩
  | jsUndefined => exact ⟨fun _ => rfl, by simp [JSVal.isTruthy]⟩
  | jsBool b =>
    cases b with
    | false => exact ⟨fun _ => rfl, by simp [JSVal.isTruthy]⟩
    | true =>
      exact ⟨by simp [JSVal.isTruthy], fun _ _ => ⟨inOperatorTypeError, rfl⟩⟩
  | jsNum falsy =>
    cases falsy with
    | false =>
      exact ⟨by simp [JSVal.isTruthy], fun _ _ => ⟨inOperatorTypeError, rfl⟩⟩
    | true => exact ⟨fun _ => rfl, by simp [JSVal.isTruthy]⟩
  | jsStr s =>
    by_cases hs : s = ""
    · subst hs
      exact ⟨fun _ => by rw [normalizeNode]; simp,
        by simp [JSVal.isTruthy]⟩
    · exact ⟨by simp [JSVal.isTruthy, hs],
        by simp [JSVal.isStringConvertible]⟩
  | jsObjToStr s => exact ⟨by simp [JSVal.isTruthy],
      by simp [JSVal.isStringConvertible]⟩
  | jsObjToStrNonString =>
    exact ⟨by simp [JSVal.isTruthy], fun _ _ => ⟨normalizeErrorMessage, rfl⟩⟩
  | jsObjNoToString =>
    exact ⟨by simp [JSVal.isTruthy], fun _ _ => ⟨normalizeErrorMessage, rfl⟩⟩

/-- C9 (witness): the amended statement applied to the truthy
non-convertible value `Object.create(null)` and to the falsy value
`null`. -/
theorem c9_witness :
    JSVal.jsObjNoToString.isTruthy = true ∧
    JSVal.jsObjNoToString.isStringConvertible = false ∧
    (∃ msg, normalizeNode JSVal.jsObjNoToString = Except.error msg) ∧
    JSVal.jsNull.isTruthy = false ∧
    normalizeNode JSVal.jsNull = Except.ok none :=
  ⟨rfl, rfl, (c9_amended JSVal.jsObjNoToString).2 rfl rfl, rfl,
    (c9_amended JSVal.jsNull).1 rfl⟩

/-- C7 (counterexample): `getTemplateOrder` does not always end with the
all-collection entry.  On the reachable graph whose only node is named
`__collection:all,__collection:[keys]`, the comma-joined trailing-pattern
check (`order.slice(-3).join(",")`) is spoofed by the commas inside the node
name: the order `[node, __collection:all]` joins to exactly the pattern
string, the collapse drops the final two entries, and the result is the
empty list. -/
theorem c7_counterexample :
    commaSpoofScenario.map.hasNode
        "__collection:all,__collection:[keys]" = true ∧
    commaSpoofScenario.getTemplateOrder = [] ∧
    ¬ commaSpoofScenario.getTemplateOrder.getLast? = some allCollectionKey := by
  decide

/-- C5 (counterexample): the two unconditional halves of the claim fail on
self-edges, which `#addDependency` silently skips.  Publishing to the
reserved `[keys]` collection yields no
`collection([keys]) → collection([keys])` edge even though `[keys]` is not a
configuration-API collection; and publishing a node literally named
`__collection:blog` to collection `blog` yields no
`collection(blog) → from` edge even though the all/consumer exception does
not apply. -/
theorem c5_counterexample :
    publishKeysScenario.collectionApiNames = [] ∧
    ¬ publishKeysScenario.map.hasEdge keysCollectionKey keysCollectionKey ∧
    publishSelfScenario.collectionApiNames = [] ∧
    ¬ publishSelfScenario.map.hasEdge (getCollectionKeyForEntry "blog")
        "__collection:blog" := by
  decide

/-- C10 (counterexample): edge creation does not always leave an existing
endpooint's metadata unchanged: when a node tagged `type = layout` consumes a
configuration-API collection, `addDependencyConsumesCollection` merges the
`consumes = "[configapi]"` marker into its metadata, so `getNodeData`
changes (the `type` tag itself survives). -/
theorem c10_counterexample :
    layoutTaggedScenario.map.hasNode "n.html" = true ∧
    layoutTaggedScenario.map.getNodeData "n.html" =
      some ⟨some "layout", none⟩ ∧
    layoutConsumerScenario.map.getNodeData "n.html" =
      some ⟨some "layout", some "[configapi]"⟩ ∧
    ¬ layoutConsumerScenario.map.getNodeData "n.html" =
        layoutTaggedScenario.map.getNodeData "n.html" := by
  decide

/-- C6: for every node whose previously recorded collection names (the truthy
tag names of its direct dependants that are collection nodes) are exactly
`{x, y}`, the query `findCollectionsRemovedFrom(node, {x})` returns exactly
`{y}` — the names recorded before but absent from the supplied current
set. -/
theorem c6_find_collections_removed (m : GlobalDependencyMap)
    (node x y : String) (hmem : m.hasNode node = true)
    (hprev : ∀ c, c ∈ prevConsumedNames m node ↔ (c = x ∨ c = y))
    (hxy : ¬ x = y) :
    ∀ c, c ∈ m.findCollectionsRemovedFrom node [x] ↔ c = y := by
  intro c
  rw [GlobalDependencyMap.findCollectionsRemovedFrom, if_neg (by simp [hmem])]
  rw [List.mem_filter]
  rw [mem_dedupFirst]
  simp only [List.mem_singleton, List.not_mem_nil, not_false_iff, and_true,
    decide_eq_true_eq, hprev c]
  constructor
  · rintro ⟨hc | hc, hnx⟩
    · exact absurd hc (by simpa using hnx)
    · exact hc
  · intro hc
    subst hc
    exact ⟨Or.inr rfl, by simpa using fun h => hxy h.symm⟩

/-- C6 (witness): a node `n.md` published to collections `x` and `y`; its
recorded names are exactly `{x, y}` and `findCollectionsRemovedFrom` with
current set `{x}` answers exactly `{y}`. -/
theorem c6_witness :
    (((GlobalDependencyMap.mk0 []).addDependencyPublishesToCollection
        "n.md" "x").addDependencyPublishesToCollection "n.md" "y").hasNode
        "n.md" = true ∧
    (∀ c, c ∈ prevConsumedNames
        (((GlobalDependencyMap.mk0 []).addDependencyPublishesToCollection
          "n.md" "x").addDependencyPublishesToCollection "n.md" "y") "n.md" ↔
        (c = "x" ∨ c = "y")) ∧
    (∀ c, c ∈ (((GlobalDependencyMap.mk0
        []).addDependencyPublishesToCollection
          "n.md" "x").addDependencyPublishesToCollection "n.md"
          "y").findCollectionsRemovedFrom "n.md" ["x"] ↔ c = "y") := by
  have hl : prevConsumedNames
      (((GlobalDependencyMap.mk0 []).addDependencyPublishesToCollection
        "n.md" "x").addDependencyPublishesToCollection "n.md" "y") "n.md" =
      ["x", "y"] := by decide
  refine ⟨by decide, ?_, ?_⟩
  · intro c
    rw [hl]
    simp
  · exact c6_find_collections_removed _ "n.md" "x" "y" (by decide)
      (fun c => by rw [hl]; simp) (by decide)

/-- C8: `resetNode` removes only outgoing edges.  For all distinct
(normalized, non-empty) nodes `A`, `B`, `C`, after `addDependency(A,[B])` and
`addDependency(C,[A])`, calling `resetNode(A)` leaves `getDependencies(A)`
empty (the node is still known, so the result is the empty list, not the
unknown sentinel) while `getDependantsFor(A)` still contains `C`. -/
theorem c8_reset_node (A B C : String)
    (hA : normStr A = A) (hB : normStr B = B) (hC : normStr C = C)
    (hA0 : ¬ A = "") (hAB : ¬ A = B) (hAC : ¬ A = C) (hBC : ¬ B = C) :
    ((((GlobalDependencyMap.mk0 []).addDependency A [B]).addDependency C
        [A]).resetNode A).getDependencies A true = some [] ∧
    C ∈ ((((GlobalDependencyMap.mk0 []).addDependency A [B]).addDependency C
        [A]).resetNode A).getDependantsFor A := by
  have hBA : ¬ B = A := fun h => hAB h.symm
  have hCA : ¬ C = A := fun h => hAC h.symm
  have hCB : ¬ C = B := fun h => hBC h.symm
  have h1 : ((GlobalDependencyMap.mk0 []).addDependency A [B]) =
      ⟨⟨[(A, none), (B, none)], [(A, [B]), (B, [])], [(A, []), (B, [A])]⟩,
        []⟩ := by
    simp [GlobalDependencyMap.addDependency, GlobalDependencyMap.mk0,
      DepGraph.empty, addDependencyPriv, addNodePriv, DepGraph.addNode,
      DepGraph.hasNode, DepGraph.addEdge, alHas, alGet, alUpdate, hA, hB,
      hAB, hBA]
  have h2 : (((GlobalDependencyMap.mk0 []).addDependency A [B]).addDependency
        C [A]) =
      ⟨⟨[(A, none), (B, none), (C, none)], [(A, [B]), (B, []), (C, [A])],
        [(A, [C]), (B, [A]), (C, [])]⟩, []⟩ := by
    rw [h1]
    simp [GlobalDependencyMap.addDependency, addDependencyPriv, addNodePriv,
      DepGraph.addNode, DepGraph.hasNode, DepGraph.addEdge, alHas, alGet,
      alUpdate, hA, hC, hAC, hCA, hCB, hBC, hBA, hAB]
  have h3 : ((((GlobalDependencyMap.mk0 []).addDependency A
        [B]).addDependency C [A]).resetNode A) =
      ⟨⟨[(A, none), (B, none), (C, none)], [(A, []), (B, []), (C, [A])],
        [(A, [C]), (B, []), (C, [])]⟩, []⟩ := by
    rw [h2]
    simp [GlobalDependencyMap.resetNode, DepGraph.hasNode,
      DepGraph.directDependenciesOf, DepGraph.removeDependency, alHas,
      alGet, alGetD, alUpdate, hA, hAB, hBA, hAC, hCA]
  rw [h3]
  constructor
  · rw [GlobalDependencyMap.getDependencies]
    simp only [hA]
    rw [if_neg (by simp [DepGraph.hasNode, alHas, alGet]), if_pos trivial]
    have hdeps : DepGraph.dependenciesOf
        ⟨[(A, none), (B, none), (C, none)], [(A, []), (B, []), (C, [A])],
          [(A, [C]), (B, []), (C, [])]⟩ A = [] := by
      rw [DepGraph.dependenciesOf, dfsGo_start_no_edges]
      · simp
      · simp [alGetD, alGet]
      · exact dfsFuel_pos _
    rw [hdeps]
    rfl
  · rw [GlobalDependencyMap.getDependantsFor, if_neg (by simpa using hA0)]
    simp only [hA]
    rw [if_neg (by simp [DepGraph.hasNode, alHas, alGet])]
    simp [DepGraph.directDependantsOf, alGetD, alGet]

/-- C8 (witness): the reset-node frame property at the concrete nodes
`a.md`, `b.md`, `c.md`. -/
theorem c8_witness :
    normStr "a.md" = "a.md" ∧ normStr "b.md" = "b.md" ∧
    normStr "c.md" = "c.md" ∧ ¬ "a.md" = "" ∧ ¬ "a.md" = "b.md" ∧
    ¬ "a.md" = "c.md" ∧ ¬ "b.md" = "c.md" ∧
    (((((GlobalDependencyMap.mk0 []).addDependency "a.md"
        ["b.md"]).addDependency "c.md" ["a.md"]).resetNode
        "a.md").getDependencies "a.md" true = some [] ∧
      "c.md" ∈ ((((GlobalDependencyMap.mk0 []).addDependency "a.md"
        ["b.md"]).addDependency "c.md" ["a.md"]).resetNode
        "a.md").getDependantsFor "a.md") :=
  ⟨by decide, by decide, by decide, by decide, by decide, by decide,
    by decide,
    c8_reset_node "a.md" "b.md" "c.md" (by decide) (by decide) (by decide)
      (by decide) (by decide) (by decide) (by decide)⟩

/-! ## Lemma kit: strings and collection keys -/

theorem strData_append (s t : String) : (s ++ t).data = s.data ++ t.data := by
  cases s; cases t; rfl

theorem getCollectionKeyForEntry_inj {a b : String}
    (h : getCollectionKeyForEntry a = getCollectionKeyForEntry b) : a = b := by
  rw [getCollectionKeyForEntry, getCollectionKeyForEntry] at h
  have hd := congrArg String.data h
  rw [strData_append, strData_append] at hd
  have hab := List.append_cancel_left hd
  cases a; cases b
  exact congrArg String.mk hab

/-- C4: the meta-collection edge rules of `addDependencyConsumesCollection`
(read with the spec's else-chain: the third rule applies to
configuration-API names other than the two reserved meta-collection names).
For every map state with a well-formed graph and every `from` node:
consuming `"[keys]"` additionally records
`collection([keys]) → collection(all)`; consuming `"all"` additionally
records `collection(all) → collection([keys])` (the permitted 2-cycle); and
consuming a configuration-API name (other than `"all"`/`"[keys]"`)
additionally records `collection(name) → collection(all)`. -/
theorem c4_meta_collection_edges (m : GlobalDependencyMap) (f : String)
    (hw : wfGraph m.map) :
    (m.addDependencyConsumesCollection f
        SPECIAL_KEYS_COLLECTION_NAME).map.hasEdge keysCollectionKey
      allCollectionKey ∧
    (m.addDependencyConsumesCollection f
        SPECIAL_ALL_COLLECTION_NAME).map.hasEdge allCollectionKey
      keysCollectionKey ∧
    (∀ name, name ∈ m.collectionApiNames →
      ¬ name = SPECIAL_ALL_COLLECTION_NAME →
      ¬ name = SPECIAL_KEYS_COLLECTION_NAME →
      (m.addDependencyConsumesCollection f name).map.hasEdge
        (getCollectionKeyForEntry name) allCollectionKey) := by
  refine ⟨?_, ?_, ?_⟩
  · rw [GlobalDependencyMap.addDependencyConsumesCollection]
    simp only [if_pos rfl]
    by_cases hcfg :
        m.isUserConfigCollectionName SPECIAL_KEYS_COLLECTION_NAME = true
    · simp only [hcfg, if_true]
      have hw1 := wfGraph_addDependencyPriv m.map (normStr f)
        [getCollectionKeyForEntry SPECIAL_KEYS_COLLECTION_NAME] hw
      have hn1 : (addDependencyPriv m.map (normStr f)
          [getCollectionKeyForEntry SPECIAL_KEYS_COLLECTION_NAME]).hasNode
          (normStr f) = true :=
        (hasNode_iff_mem _ _).mpr (mem_nodes_addDependencyPriv_from _ _ _)
      have hw2 := wfGraph_mergeNodeDataPriv _ (normStr f)
        ⟨none, some CONFIGAPI_DATA_KEY⟩ hn1 hw1
      exact hasEdge_addDependencyPriv_single _ keysCollectionKey
        allCollectionKey hw2 (by decide)
    · simp only [hcfg, if_false, Bool.false_eq_true]
      have hw1 := wfGraph_addDependencyPriv m.map (normStr f)
        [getCollectionKeyForEntry SPECIAL_KEYS_COLLECTION_NAME] hw
      exact hasEdge_addDependencyPriv_single _ keysCollectionKey
        allCollectionKey hw1 (by decide)
  · rw [GlobalDependencyMap.addDependencyConsumesCollection]
    simp only [if_neg (by decide :
      ¬ SPECIAL_ALL_COLLECTION_NAME = SPECIAL_KEYS_COLLECTION_NAME),
      if_pos rfl]
    by_cases hcfg :
        m.isUserConfigCollectionName SPECIAL_ALL_COLLECTION_NAME = true
    · simp only [hcfg, if_true]
      have hw1 := wfGraph_addDependencyPriv m.map (normStr f)
        [getCollectionKeyForEntry SPECIAL_ALL_COLLECTION_NAME] hw
      have hn1 : (addDependencyPriv m.map (normStr f)
          [getCollectionKeyForEntry SPECIAL_ALL_COLLECTION_NAME]).hasNode
          (normStr f) = true :=
        (hasNode_iff_mem _ _).mpr (mem_nodes_addDependencyPriv_from _ _ _)
      have hw2 := wfGraph_mergeNodeDataPriv _ (normStr f)
        ⟨none, some CONFIGAPI_DATA_KEY⟩ hn1 hw1
      exact hasEdge_addDependencyPriv_single _ allCollectionKey
        keysCollectionKey hw2 (by decide)
    · simp only [hcfg, if_false, Bool.false_eq_true]
      have hw1 := wfGraph_addDependencyPriv m.map (normStr f)
        [getCollectionKeyForEntry SPECIAL_ALL_COLLECTION_NAME] hw
      exact hasEdge_addDependencyPriv_single _ allCollectionKey
        keysCollectionKey hw1 (by decide)
  · intro name hmem hall hkeys
    have hcfg : m.isUserConfigCollectionName name = true := by
      simp [GlobalDependencyMap.isUserConfigCollectionName, hmem]
    have hne : ¬ getCollectionKeyForEntry name = allCollectionKey :=
      fun h => hall (getCollectionKeyForEntry_inj h)
    rw [GlobalDependencyMap.addDependencyConsumesCollection]
    simp only [if_neg hkeys, if_neg hall, hcfg, if_true]
    have hw1 := wfGraph_addDependencyPriv m.map (normStr f)
      [getCollectionKeyForEntry name] hw
    have hn1 : (addDependencyPriv m.map (normStr f)
        [getCollectionKeyForEntry name]).hasNode (normStr f) = true :=
      (hasNode_iff_mem _ _).mpr (mem_nodes_addDependencyPriv_from _ _ _)
    have hw2 := wfGraph_mergeNodeDataPriv _ (normStr f)
        ⟨none, some CONFIGAPI_DATA_KEY⟩ hn1 hw1
    exact hasEdge_addDependencyPriv_single _ (getCollectionKeyForEntry name)
      allCollectionKey hw2 hne

/-- C4 (witness): the meta-collection edge rules applied on the empty map
with `blog` registered as a configuration-API collection and
`from = "a.md"`. -/
theorem c4_witness :
    wfGraph (GlobalDependencyMap.mk0 ["blog"]).map ∧
    ((GlobalDependencyMap.mk0 ["blog"]).addDependencyConsumesCollection
        "a.md" SPECIAL_KEYS_COLLECTION_NAME).map.hasEdge keysCollectionKey
      allCollectionKey ∧
    ((GlobalDependencyMap.mk0 ["blog"]).addDependencyConsumesCollection
        "a.md" SPECIAL_ALL_COLLECTION_NAME).map.hasEdge allCollectionKey
      keysCollectionKey ∧
    "blog" ∈ (GlobalDependencyMap.mk0 ["blog"]).collectionApiNames ∧
    ((GlobalDependencyMap.mk0 ["blog"]).addDependencyConsumesCollection
        "a.md" "blog").map.hasEdge (getCollectionKeyForEntry "blog")
      allCollectionKey :=
  ⟨by decide,
    (c4_meta_collection_edges (GlobalDependencyMap.mk0 ["blog"]) "a.md"
      (by decide)).1,
    (c4_meta_collection_edges (GlobalDependencyMap.mk0 ["blog"]) "a.md"
      (by decide)).2.1,
    by decide,
    (c4_meta_collection_edges (GlobalDependencyMap.mk0 ["blog"]) "a.md"
      (by decide)).2.2 "blog" (by decide) (by decide) (by decide)⟩

/-- C5 (amended): `addDependencyPublishesToCollection(from, collectionName)`
records `collection(collectionName) → from` except in the documented
all/configuration-API-consumer case — and except when `from` *is* the
collection-node name itself, a self-edge that `#addDependency` skips; in the
all/consumer case the edge's presence is left exactly as it was.  Whenever
`collectionName` is neither a configuration-API collection nor `"[keys]"`
itself (the latter again a skipped self-edge), it also records
`collection([keys]) → collection(collectionName)`. -/
theorem c5_amended (m : GlobalDependencyMap) (f cname : String)
    (hw : wfGraph m.map) (hnf : normStr f = f) :
    (¬ f = getCollectionKeyForEntry cname →
      ¬ (cname = SPECIAL_ALL_COLLECTION_NAME ∧
          m.isConfigurationApiConsumer f = true) →
      (m.addDependencyPublishesToCollection f cname).map.hasEdge
        (getCollectionKeyForEntry cname) f) ∧
    (cname = SPECIAL_ALL_COLLECTION_NAME →
      m.isConfigurationApiConsumer f = true →
      ((m.addDependencyPublishesToCollection f cname).map.hasEdge
          (getCollectionKeyForEntry cname) f ↔
        m.map.hasEdge (getCollectionKeyForEntry cname) f)) ∧
    (¬ m.isUserConfigCollectionName cname = true →
      ¬ cname = SPECIAL_KEYS_COLLECTION_NAME →
      (m.addDependencyPublishesToCollection f cname).map.hasEdge
        keysCollectionKey (getCollectionKeyForEntry cname)) := by
  refine ⟨?_, ?_, ?_⟩
  · intro hfk hexc
    rw [GlobalDependencyMap.addDependencyPublishesToCollection]
    simp only [hnf]
    rw [if_neg hexc]
    have hkey : ¬ getCollectionKeyForEntry cname = f := fun h => hfk h.symm
    have hedge : (addDependencyPriv m.map (getCollectionKeyForEntry cname)
        [f]).hasEdge (getCollectionKeyForEntry cname) f :=
      hasEdge_addDependencyPriv_single _ _ _ hw hkey
    by_cases hu : m.isUserConfigCollectionName cname = true
    · rw [if_neg (by simp [hu])]
      exact hedge
    · rw [if_pos (by simp [hu])]
      exact hasEdge_addDependencyPriv_mono _ _ _ _ _ hedge
  · intro hall hcons
    subst hall
    rw [GlobalDependencyMap.addDependencyPublishesToCollection]
    simp only [hnf]
    have hc : True ∧ m.isConfigurationApiConsumer f = true :=
      ⟨trivial, hcons⟩
    rw [if_pos hc]
    by_cases hu :
        m.isUserConfigCollectionName SPECIAL_ALL_COLLECTION_NAME = true
    · rw [if_neg (by simp [hu])]
    · rw [if_pos (by simp [hu])]
      exact hasEdge_addDependencyPriv_ne m.map keysCollectionKey
        (getCollectionKeyForEntry SPECIAL_ALL_COLLECTION_NAME) f _
        (by decide)
  · intro hu hkeys
    have hne : ¬ keysCollectionKey = getCollectionKeyForEntry cname :=
      fun h => hkeys (getCollectionKeyForEntry_inj h).symm
    rw [GlobalDependencyMap.addDependencyPublishesToCollection]
    simp only [hnf]
    rw [if_pos (by simp [hu])]
    by_cases hexc : cname = SPECIAL_ALL_COLLECTION_NAME ∧
        m.isConfigurationApiConsumer f = true
    · rw [if_pos hexc]
      exact hasEdge_addDependencyPriv_single _ _ _ hw hne
    · rw [if_neg hexc]
      exact hasEdge_addDependencyPriv_single _ _ _
        (wfGraph_addDependencyPriv _ _ _ hw) hne

/-- C5 (witness): the amended publish contract applied on the empty map to
`from = "p.md"` and the ordinary tag collection `blog`. -/
theorem c5_witness :
    wfGraph (GlobalDependencyMap.mk0 []).map ∧
    normStr "p.md" = "p.md" ∧
    ¬ "p.md" = getCollectionKeyForEntry "blog" ∧
    ¬ ("blog" = SPECIAL_ALL_COLLECTION_NAME ∧
        (GlobalDependencyMap.mk0 []).isConfigurationApiConsumer "p.md" =
          true) ∧
    ((GlobalDependencyMap.mk0 []).addDependencyPublishesToCollection "p.md"
        "blog").map.hasEdge (getCollectionKeyForEntry "blog") "p.md" ∧
    ¬ (GlobalDependencyMap.mk0 []).isUserConfigCollectionName "blog" =
        true ∧
    ¬ "blog" = SPECIAL_KEYS_COLLECTION_NAME ∧
    ((GlobalDependencyMap.mk0 []).addDependencyPublishesToCollection "p.md"
        "blog").map.hasEdge keysCollectionKey
      (getCollectionKeyForEntry "blog") :=
  ⟨by decide, by decide, by decide, by decide,
    (c5_amended (GlobalDependencyMap.mk0 []) "p.md" "blog" (by decide)
        (by decide)).1 (by decide) (by decide),
    by decide, by decide,
    (c5_amended (GlobalDependencyMap.mk0 []) "p.md" "blog" (by decide)
        (by decide)).2.2 (by decide) (by decide)⟩

/-- C10 helper: merging keeps every node key present. -/
theorem mem_nodes_mergeNodeDataPriv_mono (g : DepGraph) (n x : String)
    (d : NodeData) (h : x ∈ alKeys g.nodes) :
    x ∈ alKeys (mergeNodeDataPriv g n d).nodes := by
  rw [mergeNodeDataPriv]
  split <;> exact mem_alKeys_alSet_mono _ _ _ _ h

theorem getNodeData_eq_of_alGet (g g' : DepGraph) (n : String)
    (h : alGet g'.nodes n = alGet g.nodes n) :
    g'.getNodeData n = g.getNodeData n := by
  rw [DepGraph.getNodeData, DepGraph.getNodeData, h]

theorem nodeType_eq_of_alGet (g g' : DepGraph) (n : String)
    (h : alGet g'.nodes n = alGet g.nodes n) :
    g'.nodeType n = g.nodeType n := by
  rw [DepGraph.nodeType, DepGraph.nodeType, getNodeData_eq_of_alGet g g' n h]

/-- C10 (amended): for every node already present in a well-formed graph,
`addDependency` and `addDependencyPublishesToCollection` leave the node's
metadata entirely unchanged (the internal add-node helper returns early for
existing nodes, and edge updates never touch node data);
`addDependencyConsumesCollection` leaves every node's `type` tag unchanged —
a `type = layout` node keeps its layout tag — and changes no node's metadata
other than possibly setting the `consumes` marker on the consuming node
itself (when the collection name is a configuration-API name). -/
theorem c10_amended (m : GlobalDependencyMap) (n : String)
    (hn : n ∈ alKeys m.map.nodes) :
    (∀ f ts, (m.addDependency f ts).map.getNodeData n =
      m.map.getNodeData n) ∧
    (∀ f c, (m.addDependencyPublishesToCollection f c).map.getNodeData n =
      m.map.getNodeData n) ∧
    (∀ f c, (m.addDependencyConsumesCollection f c).map.nodeType n =
      m.map.nodeType n) ∧
    (∀ f c, ¬ n = normStr f →
      (m.addDependencyConsumesCollection f c).map.getNodeData n =
        m.map.getNodeData n) := by
  refine ⟨?_, ?_, ?_, ?_⟩
  · intro f ts
    rw [GlobalDependencyMap.addDependency]
    exact getNodeData_eq_of_alGet _ _ _
      (alGet_nodes_addDependencyPriv m.map (normStr f) n (ts.map normStr) hn)
  · intro f c
    rw [GlobalDependencyMap.addDependencyPublishesToCollection]
    by_cases hexc : c = SPECIAL_ALL_COLLECTION_NAME ∧
        m.isConfigurationApiConsumer (normStr f) = true
    · by_cases hu : m.isUserConfigCollectionName c = true
      · rw [if_neg (by simp [hu]), if_pos hexc]
      · rw [if_pos (by simp [hu]), if_pos hexc]
        exact getNodeData_eq_of_alGet _ _ _
          (alGet_nodes_addDependencyPriv m.map keysCollectionKey n
            [getCollectionKeyForEntry c] hn)
    · by_cases hu : m.isUserConfigCollectionName c = true
      · rw [if_neg (by simp [hu]), if_neg hexc]
        exact getNodeData_eq_of_alGet _ _ _
          (alGet_nodes_addDependencyPriv m.map
            (getCollectionKeyForEntry c) n [normStr f] hn)
      · rw [if_pos (by simp [hu]), if_neg hexc]
        have e1 := alGet_nodes_addDependencyPriv m.map
          (getCollectionKeyForEntry c) n [normStr f] hn
        have m1 := mem_nodes_addDependencyPriv_mono m.map
          (getCollectionKeyForEntry c) n [normStr f] hn
        have e2 := alGet_nodes_addDependencyPriv _ keysCollectionKey n
          [getCollectionKeyForEntry c] m1
        exact getNodeData_eq_of_alGet _ _ _ (e2.trans e1)
  · intro f c
    rw [GlobalDependencyMap.addDependencyConsumesCollection]
    have e1 := alGet_nodes_addDependencyPriv m.map (normStr f) n
      [getCollectionKeyForEntry c] hn
    have m1 := mem_nodes_addDependencyPriv_mono m.map (normStr f) n
      [getCollectionKeyForEntry c] hn
    have base1 : (addDependencyPriv m.map (normStr f)
        [getCollectionKeyForEntry c]).nodeType n = m.map.nodeType n :=
      nodeType_eq_of_alGet _ _ _ e1
    have base2 : (mergeNodeDataPriv (addDependencyPriv m.map (normStr f)
        [getCollectionKeyForEntry c]) (normStr f)
        ⟨none, some CONFIGAPI_DATA_KEY⟩).nodeType n =
        m.map.nodeType n :=
      (nodeType_mergeNodeDataPriv _ (normStr f) n
        (some CONFIGAPI_DATA_KEY)).trans base1
    have m2 : n ∈ alKeys (mergeNodeDataPriv (addDependencyPriv m.map
        (normStr f) [getCollectionKeyForEntry c]) (normStr f)
        ⟨none, some CONFIGAPI_DATA_KEY⟩).nodes :=
      mem_nodes_mergeNodeDataPriv_mono _ (normStr f) n _ m1
    have hstep : ∀ (g : DepGraph) (X : String) (Y : List String),
        n ∈ alKeys g.nodes → (addDependencyPriv g X Y).nodeType n =
          g.nodeType n :=
      fun g X Y h => nodeType_eq_of_alGet _ _ _
        (alGet_nodes_addDependencyPriv g X n Y h)
    by_cases hcfg : m.isUserConfigCollectionName c = true
    · rw [if_pos hcfg]
      by_cases hck : c = SPECIAL_KEYS_COLLECTION_NAME
      · rw [if_pos hck]
        exact (hstep _ _ _ m2).trans base2
      · rw [if_neg hck]
        by_cases hca : c = SPECIAL_ALL_COLLECTION_NAME
        · rw [if_pos hca]
          exact (hstep _ _ _ m2).trans base2
        · rw [if_neg hca, if_pos hcfg]
          exact (hstep _ _ _ m2).trans base2
    · rw [if_neg hcfg]
      by_cases hck : c = SPECIAL_KEYS_COLLECTION_NAME
      · rw [if_pos hck]
        exact (hstep _ _ _ m1).trans base1
      · rw [if_neg hck]
        by_cases hca : c = SPECIAL_ALL_COLLECTION_NAME
        · rw [if_pos hca]
          exact (hstep _ _ _ m1).trans base1
        · rw [if_neg hca, if_neg hcfg]
          exact base1
  · intro f c hne
    rw [GlobalDependencyMap.addDependencyConsumesCollection]
    have e1 := alGet_nodes_addDependencyPriv m.map (normStr f) n
      [getCollectionKeyForEntry c] hn
    have m1 := mem_nodes_addDependencyPriv_mono m.map (normStr f) n
      [getCollectionKeyForEntry c] hn
    have e2 : alGet (mergeNodeDataPriv (addDependencyPriv m.map (normStr f)
        [getCollectionKeyForEntry c]) (normStr f)
        ⟨none, some CONFIGAPI_DATA_KEY⟩).nodes n = alGet m.map.nodes n :=
      (alGet_nodes_mergeNodeDataPriv_ne _ (normStr f) n _ hne).trans e1
    have m2 : n ∈ alKeys (mergeNodeDataPriv (addDependencyPriv m.map
        (normStr f) [getCollectionKeyForEntry c]) (normStr f)
        ⟨none, some CONFIGAPI_DATA_KEY⟩).nodes :=
      mem_nodes_mergeNodeDataPriv_mono _ (normStr f) n _ m1
    by_cases hcfg : m.isUserConfigCollectionName c = true
    · rw [if_pos hcfg]
      by_cases hck : c = SPECIAL_KEYS_COLLECTION_NAME
      · rw [if_pos hck]
        exact getNodeData_eq_of_alGet _ _ _
          ((alGet_nodes_addDependencyPriv _ _ n _ m2).trans e2)
      · rw [if_neg hck]
        by_cases hca : c = SPECIAL_ALL_COLLECTION_NAME
        · rw [if_pos hca]
          exact getNodeData_eq_of_alGet _ _ _
            ((alGet_nodes_addDependencyPriv _ _ n _ m2).trans e2)
        · rw [if_neg hca, if_pos hcfg]
          exact getNodeData_eq_of_alGet _ _ _
            ((alGet_nodes_addDependencyPriv _ _ n _ m2).trans e2)
    · rw [if_neg hcfg]
      by_cases hck : c = SPECIAL_KEYS_COLLECTION_NAME
      · rw [if_pos hck]
        exact getNodeData_eq_of_alGet _ _ _
          ((alGet_nodes_addDependencyPriv _ _ n _ m1).trans e1)
      · rw [if_neg hck]
        by_cases hca : c = SPECIAL_ALL_COLLECTION_NAME
        · rw [if_pos hca]
          exact getNodeData_eq_of_alGet _ _ _
            ((alGet_nodes_addDependencyPriv _ _ n _ m1).trans e1)
        · rw [if_neg hca, if_neg hcfg]
          exact getNodeData_eq_of_alGet _ _ _ e1

/-- C10 (witness): the amended frame property applied to the layout node
`n.html` of `layoutTaggedScenario`. -/
theorem c10_witness :
    "n.html" ∈ alKeys layoutTaggedScenario.map.nodes ∧
    (layoutTaggedScenario.addDependency "z.md"
        ["n.html"]).map.getNodeData "n.html" =
      layoutTaggedScenario.map.getNodeData "n.html" ∧
    (layoutTaggedScenario.addDependencyPublishesToCollection "n.html"
        "tagged").map.getNodeData "n.html" =
      layoutTaggedScenario.map.getNodeData "n.html" ∧
    (layoutTaggedScenario.addDependencyConsumesCollection "n.html"
        "blog").map.nodeType "n.html" =
      layoutTaggedScenario.map.nodeType "n.html" ∧
    ¬ "n.html" = normStr "q.md" ∧
    (layoutTaggedScenario.addDependencyConsumesCollection "q.md"
        "blog").map.getNodeData "n.html" =
      layoutTaggedScenario.map.getNodeData "n.html" :=
  ⟨by decide,
    (c10_amended layoutTaggedScenario "n.html" (by decide)).1 "z.md"
      ["n.html"],
    (c10_amended layoutTaggedScenario "n.html" (by decide)).2.1 "n.html"
      "tagged",
    (c10_amended layoutTaggedScenario "n.html" (by decide)).2.2.1 "n.html"
      "blog",
    by decide,
    (c10_amended layoutTaggedScenario "n.html" (by decide)).2.2.2 "q.md"
      "blog" (by decide)⟩

/-! ## The persistence codec round trip (C1) -/

theorem replayEntries_aux {α : Type} (l : List (String × α)) :
    ∀ acc : List (String × α), (alKeys l).Nodup →
      (∀ k, k ∈ alKeys l → ¬ k ∈ alKeys acc) →
      l.foldl (fun acc p => alSet acc p.1 p.2) acc = acc ++ l := by
  induction l with
  | nil => intro acc _ _; simp
  | cons p rest ih =>
    intro acc hnd hdisj
    obtain ⟨k, v⟩ := p
    have hkacc : ¬ k ∈ alKeys acc := hdisj k (by simp [alKeys])
    have hkhas : ¬ alHas acc k = true :=
      fun h => hkacc ((alHas_iff_mem acc k).mp h)
    have hnd' : (alKeys rest).Nodup := by
      rw [alKeys, List.map_cons] at hnd
      exact hnd.of_cons
    have hkrest : ¬ k ∈ alKeys rest := by
      rw [alKeys, List.map_cons, List.nodup_cons] at hnd
      exact hnd.1
    simp only [List.foldl_cons]
    rw [show alSet acc k v = acc ++ [(k, v)] from by rw [alSet, if_neg hkhas]]
    rw [ih (acc ++ [(k, v)]) hnd' ?_]
    · simp
    · intro k' hk'
      rw [alKeys_append]
      simp only [List.mem_append, not_or]
      refine ⟨hdisj k'
        (by rw [alKeys, List.map_cons]; exact List.mem_cons_of_mem _ hk'), ?_⟩
      simp only [alKeys, List.map_cons, List.map_nil, List.mem_singleton]
      exact fun h => hkrest (h ▸ hk')

theorem replayEntries_eq {α : Type} (l : List (String × α))
    (h : (alKeys l).Nodup) : replayEntries l = l := by
  rw [replayEntries]
  simpa using replayEntries_aux l [] h (by simp [alKeys])

/-- C1: the persistence round trip.  For every map state whose graph store
satisfies the `Map` key-uniqueness invariant, `restore(stringify())`
reconstructs the identical state — hence `overallOrder()`,
`getDependencies` for every node, and every node's metadata are identical
to the original. -/
theorem c1_round_trip (m : GlobalDependencyMap)
    (h1 : (alKeys m.map.nodes).Nodup)
    (h2 : (alKeys m.map.outgoingEdges).Nodup)
    (h3 : (alKeys m.map.incomingEdges).Nodup) :
    m.restore m.stringify = m ∧
    (m.restore m.stringify).map.overallOrder = m.map.overallOrder ∧
    (∀ node includeLayouts,
      (m.restore m.stringify).getDependencies node includeLayouts =
        m.getDependencies node includeLayouts) ∧
    (∀ node, (m.restore m.stringify).map.getNodeData node =
      m.map.getNodeData node) := by
  have hmain : m.restore m.stringify = m := by
    rw [GlobalDependencyMap.restore, GlobalDependencyMap.stringify]
    have e1 := replayEntries_eq m.map.nodes h1
    have e2 := replayEntries_eq m.map.outgoingEdges h2
    have e3 := replayEntries_eq m.map.incomingEdges h3
    congr 1
    rw [e1, e2, e3]
  exact ⟨hmain, by rw [hmain], fun node il => by rw [hmain],
    fun node => by rw [hmain]⟩

/-- C1 (witness): the round trip applied to the populated publish/consume
scenario graph. -/
theorem c1_witness :
    (alKeys consumerScenario.map.nodes).Nodup ∧
    (alKeys consumerScenario.map.outgoingEdges).Nodup ∧
    (alKeys consumerScenario.map.incomingEdges).Nodup ∧
    (consumerScenario.restore consumerScenario.stringify =
        consumerScenario ∧
      (consumerScenario.restore
          consumerScenario.stringify).map.overallOrder =
        consumerScenario.map.overallOrder ∧
      (∀ node includeLayouts,
        (consumerScenario.restore
            consumerScenario.stringify).getDependencies node
            includeLayouts =
          consumerScenario.getDependencies node includeLayouts) ∧
      (∀ node,
        (consumerScenario.restore
            consumerScenario.stringify).map.getNodeData node =
          consumerScenario.map.getNodeData node)) :=
  ⟨by decide, by decide, by decide,
    c1_round_trip consumerScenario (by decide) (by decide) (by decide)⟩

/-! ## Lemma kit: the traversal result has no duplicates -/

theorem dfsGo_spec (edges : List (String × List String)) :
    ∀ fuel : Nat, ∀ res path : List String, ∀ node : String, res.Nodup →
      ∃ t, dfsGo edges fuel res path node = res ++ t ∧ (res ++ t).Nodup ∧
        ∀ x ∈ t, ¬ x ∈ path := by
  intro fuel
  induction fuel with
  | zero =>
    intro res path node h
    exact ⟨[], by simp [dfsGo], by simpa using h, by simp⟩
  | succ f ih =>
    intro res path node h
    rw [dfsGo]
    by_cases hg : node ∈ res ∨ node ∈ path
    · rw [if_pos hg]
      exact ⟨[], by simp, by simpa using h, by simp⟩
    · rw [if_neg hg]
      push_neg at hg
      obtain ⟨hnr, hnp⟩ := hg
      have hfold : ∀ l : List String, ∀ res' : List String, res'.Nodup →
          ∃ t, l.foldl (fun r t => dfsGo edges f r (node :: path) t) res' =
            res' ++ t ∧ (res' ++ t).Nodup ∧
            ∀ x ∈ t, ¬ x ∈ node :: path := by
        intro l
        induction l with
        | nil =>
          intro res' h'
          exact ⟨[], by simp, by simpa using h', by simp⟩
        | cons e es ihe =>
          intro res' h'
          simp only [List.foldl_cons]
          obtain ⟨t1, ht1, hnd1, hp1⟩ := ih res' (node :: path) e h'
          rw [ht1]
          obtain ⟨t2, ht2, hnd2, hp2⟩ := ihe (res' ++ t1) hnd1
          rw [ht2]
          refine ⟨t1 ++ t2, by rw [List.append_assoc],
            by rwa [List.append_assoc] at hnd2, ?_⟩
          intro x hx
          rcases List.mem_append.mp hx with hx | hx
          · exact hp1 x hx
          · exact hp2 x hx
      obtain ⟨T, hT, hndT, hpT⟩ := hfold (alGetD edges node []) res h
      rw [hT]
      refine ⟨T ++ [node], by rw [List.append_assoc], ?_, ?_⟩
      · rw [← List.append_assoc]
        have hnode : ¬ node ∈ res ++ T := by
          intro hmem
          rcases List.mem_append.mp hmem with hm | hm
          · exact hnr hm
          · exact hpT node hm (List.mem_cons_self node path)
        rw [List.nodup_append]
        refine ⟨hndT, List.nodup_singleton node, ?_⟩
        intro a ha hb
        rw [List.mem_singleton] at hb
        exact hnode (hb ▸ ha)
      · intro x hx
        rcases List.mem_append.mp hx with hx | hx
        · exact fun hp => hpT x hx (List.mem_cons_of_mem _ hp)
        · rw [List.mem_singleton] at hx
          exact hx ▸ hnp

theorem foldl_dfsGo_nodup (edges : List (String × List String)) (fuel : Nat)
    (l : List String) :
    ∀ res : List String, res.Nodup →
      (l.foldl (fun r n => dfsGo edges fuel r [] n) res).Nodup := by
  induction l with
  | nil => intro res h; simpa using h
  | cons x xs ih =>
    intro res h
    simp only [List.foldl_cons]
    obtain ⟨t, ht, hnd, _⟩ := dfsGo_spec edges fuel res [] x h
    rw [ht]
    exact ih _ hnd

theorem overallOrder_nodup (g : DepGraph) : g.overallOrder.Nodup := by
  rw [DepGraph.overallOrder]
  simp only []
  split
  · exact List.nodup_nil
  · exact foldl_dfsGo_nodup _ _ _ _
      (foldl_dfsGo_nodup _ _ _ _ List.nodup_nil)

/-! ## Lemma kit: comma-joined renderings -/

theorem count_comma_eq_zero (s : String) (h : noComma s = true) :
    s.data.count ',' = 0 := by
  rw [List.count_eq_zero]
  simpa [noComma] using h

theorem string_data_inj {s t : String} (h : s.data = t.data) : s = t := by
  cases s; cases t
  exact congrArg String.mk h

theorem comma_split : ∀ a b x y : List Char, ¬ ',' ∈ a → ¬ ',' ∈ b →
    a ++ ',' :: x = b ++ ',' :: y → a = b ∧ x = y := by
  intro a
  induction a with
  | nil =>
    intro b x y _ hb h
    cases b with
    | nil => simpa using h
    | cons c bs =>
      simp only [List.nil_append, List.cons_append, List.cons.injEq] at h
      exact absurd (by rw [← h.1]; exact List.mem_cons_self _ _) hb
  | cons c as ihc =>
    intro b x y ha hb h
    cases b with
    | nil =>
      simp only [List.cons_append, List.nil_append, List.cons.injEq] at h
      exact absurd (by rw [h.1]; exact List.mem_cons_self _ _) ha
    | cons d bs =>
      simp only [List.cons_append, List.cons.injEq] at h
      obtain ⟨hcd, h'⟩ := h
      have ha' : ¬ ',' ∈ as := fun hm => ha (List.mem_cons_of_mem _ hm)
      have hb' : ¬ ',' ∈ bs := fun hm => hb (List.mem_cons_of_mem _ hm)
      obtain ⟨h1, h2⟩ := ihc bs x y ha' hb' h'
      exact ⟨by rw [hcd, h1], h2⟩

theorem data_join_pair (s t : String) :
    (s ++ "," ++ t).data = s.data ++ ',' :: t.data := by
  rw [strData_append, strData_append]
  simp

theorem noComma_mem_data {s : String} (h : noComma s = true) :
    ¬ ',' ∈ s.data := by
  simpa [noComma] using h

theorem joinComma_eq_pattern (l : List String)
    (hc : ∀ s ∈ l, noComma s = true) (hlen : l.length ≤ 3)
    (h : joinComma l = templateOrderPattern) :
    l = [allCollectionKey, keysCollectionKey, allCollectionKey] := by
  rcases l with _ | ⟨s, _ | ⟨t, _ | ⟨u, _ | ⟨v, rest⟩⟩⟩⟩
  · exact absurd h (by decide)
  · have hs : noComma s = true := hc s (by simp)
    rw [show joinComma [s] = s from rfl] at h
    rw [h] at hs
    exact absurd hs (by decide)
  · rw [show joinComma [s, t] = s ++ "," ++ t from rfl] at h
    have hcount := congrArg (fun str => str.data.count ',') h
    simp only [data_join_pair, List.count_append, List.count_cons] at hcount
    rw [count_comma_eq_zero s (hc s (by simp)),
      count_comma_eq_zero t (hc t (by simp))] at hcount
    have : templateOrderPattern.data.count ',' = 2 := by decide
    rw [this] at hcount
    simp at hcount
  · rw [show joinComma [s, t, u] = s ++ "," ++ (t ++ "," ++ u) from rfl] at h
    have hd := congrArg String.data h
    rw [data_join_pair, data_join_pair] at hd
    have hpat : templateOrderPattern.data =
        allCollectionKey.data ++ ',' ::
          (keysCollectionKey.data ++ ',' :: allCollectionKey.data) := by
      decide
    rw [hpat] at hd
    obtain ⟨h1, h23⟩ := comma_split s.data allCollectionKey.data _ _
      (noComma_mem_data (hc s (by simp))) (by decide) hd
    obtain ⟨h2, h3⟩ := comma_split t.data keysCollectionKey.data _ _
      (noComma_mem_data (hc t (by simp))) (by decide) h23
    rw [string_data_inj h1, string_data_inj h2, string_data_inj h3]
  · simp at hlen

/-! ## Lemma kit: list endings -/

theorem take_append_len {α : Type} (l₁ l₂ : List α) (n : Nat) :
    (l₁ ++ l₂).take (l₁.length + n) = l₁ ++ l₂.take n := by
  induction l₁ with
  | nil => simp
  | cons x xs ih => simp [List.take_cons, ih, Nat.succ_add]

theorem mem_of_getLastQ {α : Type} {l : List α} {a : α}
    (h : l.getLast? = some a) : a ∈ l := by
  induction l with
  | nil => simp at h
  | cons x xs ih =>
    cases xs with
    | nil =>
      simp only [List.getLast?_singleton, Option.some.injEq] at h
      simp [h]
    | cons y ys =>
      rw [List.getLast?_cons_cons] at h
      exact List.mem_cons_of_mem _ (ih h)

theorem append_singleton_inj {α : Type} {l₁ l₂ : List α} {a b : α}
    (h : l₁ ++ [a] = l₂ ++ [b]) : l₁ = l₂ ∧ a = b := by
  have h' := congrArg List.reverse h
  simp only [List.reverse_append, List.reverse_cons, List.reverse_nil,
    List.nil_append, List.singleton_append, List.cons.injEq] at h'
  exact ⟨List.reverse_injective h'.2, h'.1⟩

theorem nodup_last_not_mem_dropLast {l : List String} (hnd : l.Nodup)
    {a : String} (ha : l.getLast? = some a) : ¬ a ∈ l.dropLast := by
  have hne : l ≠ [] := by
    intro he; rw [he] at ha; simp at ha
  have hdec := List.dropLast_append_getLast hne
  have hlast : l.getLast hne = a := by
    rw [List.getLast?_eq_getLast l hne] at ha
    exact Option.some.inj ha
  rw [hlast] at hdec
  intro hmem
  rw [← hdec, List.nodup_append] at hnd
  exact hnd.2.2 hmem (List.mem_singleton.mpr rfl)

theorem dropLast_append_singleton {α : Type} (l : List α) (a : α) :
    (l ++ [a]).dropLast = l := by simp

/-- The ending shape of `getTemplateOrder`'s two steps on any duplicate-free
order whose entries are comma-free: the result ends with the all-collection
key, exactly one such entry sits at the end (the preceding entry differs),
and no redundant trailing `all,[keys],all` rendering survives. -/
theorem templateOrder_shape (ord : List String) (hnd : ord.Nodup)
    (hc : ∀ s ∈ ord, noComma s = true) :
    (collapseStep (appendAllStep ord)).getLast? = some allCollectionKey ∧
    ¬ (collapseStep (appendAllStep ord)).dropLast.getLast? =
        some allCollectionKey ∧
    ¬ joinComma ((collapseStep (appendAllStep ord)).drop
        ((collapseStep (appendAllStep ord)).length - 3)) =
      templateOrderPattern := by
  by_cases hb : ¬ ord.getLast? = some allCollectionKey
  · have ho2 : appendAllStep ord = ord ++ [allCollectionKey] := by
      rw [appendAllStep, if_pos hb]
    rw [ho2, collapseStep]
    have hcA : ∀ s ∈ ord ++ [allCollectionKey], noComma s = true := by
      intro s hs
      rcases List.mem_append.mp hs with hs | hs
      · exact hc s hs
      · rw [List.mem_singleton] at hs; rw [hs]; decide
    by_cases J : joinComma ((ord ++ [allCollectionKey]).drop
        ((ord ++ [allCollectionKey]).length - 3)) = templateOrderPattern
    · rw [if_pos J]
      have hsub : ∀ s ∈ (ord ++ [allCollectionKey]).drop
          ((ord ++ [allCollectionKey]).length - 3), noComma s = true :=
        fun s hs => hcA s (List.mem_of_mem_drop hs)
      have hlen3 : ((ord ++ [allCollectionKey]).drop
          ((ord ++ [allCollectionKey]).length - 3)).length ≤ 3 := by
        rw [List.length_drop]; omega
      have htail := joinComma_eq_pattern _ hsub hlen3 J
      have hdecomp : ord ++ [allCollectionKey] =
          (ord ++ [allCollectionKey]).take
            ((ord ++ [allCollectionKey]).length - 3) ++
            [allCollectionKey, keysCollectionKey, allCollectionKey] := by
        conv_lhs => rw [← List.take_append_drop
          ((ord ++ [allCollectionKey]).length - 3)
          (ord ++ [allCollectionKey])]
        rw [htail]
      set pre := (ord ++ [allCollectionKey]).take
        ((ord ++ [allCollectionKey]).length - 3) with hpre
      have hdecomp2 : ord ++ [allCollectionKey] =
          (pre ++ [allCollectionKey, keysCollectionKey]) ++
            [allCollectionKey] := by
        rw [hdecomp, List.append_assoc]
        rfl
      have hord : ord = pre ++ [allCollectionKey, keysCollectionKey] :=
        (append_singleton_inj hdecomp2).1
      have hdisj := (List.nodup_append.mp (hord ▸ hnd)).2.2
      have hApre : ¬ allCollectionKey ∈ pre := fun hm => hdisj hm (by simp)
      have hKpre : ¬ keysCollectionKey ∈ pre := fun hm => hdisj hm (by simp)
      have hlen2 : (ord ++ [allCollectionKey]).length - 2 = pre.length + 1 := by
        rw [hdecomp, List.length_append]
        simp
      have hr : (ord ++ [allCollectionKey]).take
          ((ord ++ [allCollectionKey]).length - 2) =
          pre ++ [allCollectionKey] := by
        rw [hlen2, hdecomp, take_append_len]
        rfl
      rw [hr]
      refine ⟨List.getLast?_concat _, ?_, ?_⟩
      · rw [dropLast_append_singleton]
        intro hcon
        exact hApre (mem_of_getLastQ hcon)
      · intro hcon
        have hsub2 : ∀ s ∈ (pre ++ [allCollectionKey]).drop
            ((pre ++ [allCollectionKey]).length - 3), noComma s = true := by
          intro s hs
          have hsm := List.mem_of_mem_drop hs
          rcases List.mem_append.mp hsm with hsm | hsm
          · exact hc s (by rw [hord]; exact List.mem_append_left _ hsm)
          · rw [List.mem_singleton] at hsm; rw [hsm]; decide
        have hlen32 : ((pre ++ [allCollectionKey]).drop
            ((pre ++ [allCollectionKey]).length - 3)).length ≤ 3 := by
          rw [List.length_drop]; omega
        have htail2 := joinComma_eq_pattern _ hsub2 hlen32 hcon
        have hKmem : keysCollectionKey ∈ (pre ++ [allCollectionKey]).drop
            ((pre ++ [allCollectionKey]).length - 3) := by
          rw [htail2]; simp
        rcases List.mem_append.mp (List.mem_of_mem_drop hKmem) with hm | hm
        · exact hKpre hm
        · rw [List.mem_singleton] at hm
          exact absurd hm (by decide)
    · rw [if_neg J]
      refine ⟨List.getLast?_concat _, ?_, J⟩
      rw [dropLast_append_singleton]
      exact hb
  · have hlast : ord.getLast? = some allCollectionKey := not_not.mp hb
    have ho2 : appendAllStep ord = ord := by rw [appendAllStep, if_neg hb]
    rw [ho2, collapseStep]
    by_cases J : joinComma (ord.drop (ord.length - 3)) = templateOrderPattern
    · have hsub : ∀ s ∈ ord.drop (ord.length - 3), noComma s = true :=
        fun s hs => hc s (List.mem_of_mem_drop hs)
      have hlen3 : (ord.drop (ord.length - 3)).length ≤ 3 := by
        rw [List.length_drop]; omega
      have htail := joinComma_eq_pattern _ hsub hlen3 J
      have hdecomp : ord = ord.take (ord.length - 3) ++
          [allCollectionKey, keysCollectionKey, allCollectionKey] := by
        conv_lhs => rw [← List.take_append_drop (ord.length - 3) ord]
        rw [htail]
      rw [hdecomp, List.nodup_append] at hnd
      exact absurd hnd.2.1 (by decide)
    · rw [if_neg J]
      refine ⟨hlast, ?_, J⟩
      intro hcon
      exact nodup_last_not_mem_dropLast hnd hlast (mem_of_getLastQ hcon)

/-- C7 (amended): for every map state in which no entry of the overall order
contains a comma (the trailing-pattern check compares a comma-joined
rendering of the last three entries, which comma-bearing node names can
spoof — see the counterexample), `getTemplateOrder()` ends with the "all"
collection entry exactly once: the final entry is `__collection:all`, the
entry before it is not, and no redundant trailing
`__collection:all,__collection:[keys],__collection:all` rendering remains,
even when "all" and "[keys]" were asserted as dependencies of each
other. -/
theorem c7_amended (m : GlobalDependencyMap)
    (hcomma : ∀ s ∈ m.map.overallOrder, noComma s = true) :
    m.getTemplateOrder.getLast? = some allCollectionKey ∧
    ¬ m.getTemplateOrder.dropLast.getLast? = some allCollectionKey ∧
    ¬ joinComma (m.getTemplateOrder.drop (m.getTemplateOrder.length - 3)) =
      templateOrderPattern := by
  have h := templateOrder_shape m.map.overallOrder (overallOrder_nodup m.map)
    hcomma
  rw [GlobalDependencyMap.getTemplateOrder]
  exact h

/-- C7 (witness): the amended ending property on the populated
publish/consume scenario graph, in which "all" and "[keys]" participate in
their mutual dependency. -/
theorem c7_witness :
    (∀ s ∈ consumerScenario.map.overallOrder, noComma s = true) ∧
    (consumerScenario.getTemplateOrder.getLast? = some allCollectionKey ∧
      ¬ consumerScenario.getTemplateOrder.dropLast.getLast? =
          some allCollectionKey ∧
      ¬ joinComma (consumerScenario.getTemplateOrder.drop
          (consumerScenario.getTemplateOrder.length - 3)) =
        templateOrderPattern) :=
  ⟨by decide, c7_amended consumerScenario (by decide)⟩

end ElevenDeps
